import Mathlib

/-!
A verification development for `ghost_static_generator.py`, a single-file
static-site mirroring tool.  The Python source is shallowly embedded below:
pure string manipulation is translated to executable Lean functions over
`List Char` / `String`, the stateful crawl is translated to explicit state
passing over a `CrawlState` record with an event trace, and the network is
abstracted as an oracle `String → Reply`.  External libraries used by the
source (`urllib.parse`, `requests`, BeautifulSoup, the filesystem) are
modelled as follows: `urllib.parse.urlsplit`/`urljoin` are re-implemented
following CPython's algorithm (without `;`-parameter splitting and without
dot-segment normalisation, which no claim depends on); an HTTP response is
oracle data carrying status, content type, body text and the parsed document;
the filesystem is an association list from paths to contents.
-/

namespace GhostStatic

/-! ## Small Python-style string utilities (over `List Char`) -/

/-- ASCII lower-casing of one character (models `str.lower` on the ASCII
range, which is the only range the source's content types and URLs use). -/
def lowerChar (c : Char) : Char :=
  if 'A' ≤ c ∧ c ≤ 'Z' then Char.ofNat (c.toNat + 32) else c

/-- ASCII lower-casing of a string. -/
def asciiLower (s : String) : String := ⟨s.data.map lowerChar⟩

/-- Python whitespace characters recognised by `str.split()` / `str.strip()`
(ASCII subset). -/
def isPySpace (c : Char) : Bool :=
  c = ' ' ∨ c = '\t' ∨ c = '\n' ∨ c = '\r' ∨ c = '\x0b' ∨ c = '\x0c'

/-- `str.strip()` — drop leading and trailing whitespace. -/
def pyStripL (l : List Char) : List Char :=
  ((l.dropWhile isPySpace).reverse.dropWhile isPySpace).reverse

def pyStrip (s : String) : String := ⟨pyStripL s.data⟩

/-- Split a character list at every occurrence of `sep`, keeping empty
pieces (models Python `str.split(sep)` for a one-character separator). -/
def splitOnCharL (sep : Char) : List Char → List (List Char)
  | [] => [[]]
  | c :: t =>
    if c = sep then [] :: splitOnCharL sep t
    else
      match splitOnCharL sep t with
      | [] => [[c]]
      | h :: r => (c :: h) :: r

def splitOnChar (sep : Char) (s : String) : List String :=
  (splitOnCharL sep s.data).map (fun l => ⟨l⟩)

/-- Python `str.split()` (no argument): split on whitespace runs, dropping
empty pieces. -/
def pySplitWsL : List Char → List (List Char)
  | [] => []
  | c :: t =>
    if isPySpace c then pySplitWsL t
    else
      match pySplitWsL t with
      | [] => [[c]]
      | h :: r =>
        match t with
        | [] => [[c]]
        | c' :: _ => if isPySpace c' then [c] :: h :: r else (c :: h) :: r

def pySplitWs (s : String) : List String := (pySplitWsL s.data).map (fun l => ⟨l⟩)

/-- Python `str.lstrip('/')`: drop every leading `/`. -/
def lstripSlashes (s : String) : String := ⟨s.data.dropWhile (· = '/')⟩

/-- Does `needle` occur as a contiguous substring of `hay`?  Executable
version of `List.IsInfix`, modelling Python's `in` on strings. -/
def infixB (needle : List Char) : List Char → Bool
  | [] => needle.isEmpty
  | c :: t => needle.isPrefixOf (c :: t) || infixB needle t

/-- Python `needle in hay` for strings. -/
def containsSub (hay needle : String) : Bool := infixB needle.data hay.data

/-- First occurrence split: `splitAtChar q l = some (before, after)` when
`q` occurs in `l`, with `l = before ++ q :: after` and `q ∉ before`. -/
def splitAtChar (q : Char) : List Char → Option (List Char × List Char)
  | [] => none
  | c :: t =>
    if c = q then some ([], t)
    else
      match splitAtChar q t with
      | none => none
      | some (b, a) => some (c :: b, a)

theorem splitAtChar_spec (q : Char) :
    ∀ (l b a : List Char), splitAtChar q l = some (b, a) → l = b ++ q :: a := by
  intro l
  induction l with
  | nil => intro b a h; simp [splitAtChar] at h
  | cons c t ih =>
    intro b a h
    by_cases hc : c = q
    · simp [splitAtChar, hc] at h
      simp [hc, ← h.1, ← h.2]
    · simp [splitAtChar, hc] at h
      match hs : splitAtChar q t with
      | none => rw [hs] at h; simp at h
      | some (b', a') =>
        rw [hs] at h
        simp at h
        have := ih b' a' hs
        simp [← h.1, ← h.2, this]

theorem splitAtChar_length (q : Char) :
    ∀ (l b a : List Char), splitAtChar q l = some (b, a) → a.length < l.length := by
  intro l b a h
  have := splitAtChar_spec q l b a h
  subst this
  simp
  omega

/-! ## A model of CPython's `urllib.parse.urlsplit`

Follows the CPython algorithm: optionally strip a `scheme:` prefix (a leading
alphabetic character followed by alphanumeric/`+`/`-`/`.` characters before a
`:`), then a `//netloc` part delimited by `/`, `?` or `#`, then split off the
fragment at the first `#`, then the query at the first `?`.  The source never
passes URLs containing `;`, so CPython's extra parameter split performed by
`urlparse` on top of `urlsplit` is omitted; `.path` below therefore matches
`urlparse(url).path` for all URLs handled here. -/

structure UrlParts where
  scheme : String
  netloc : String
  path : String
  query : String
  fragment : String
deriving DecidableEq

def isSchemeChar (c : Char) : Bool :=
  c.isAlpha ∨ c.isDigit ∨ c = '+' ∨ c = '-' ∨ c = '.'

/-- Split the leading `scheme:` off a URL if present. -/
def splitScheme (l : List Char) : String × List Char :=
  match splitAtChar ':' l with
  | none => ("", l)
  | some (before, after) =>
    match before with
    | [] => ("", l)
    | c :: rest =>
      if c.isAlpha ∧ (c :: rest).all isSchemeChar then
        (⟨(c :: rest).map lowerChar⟩, after)
      else ("", l)

/-- Take the netloc after a leading `//`: characters up to the first of
`/`, `?`, `#`. -/
def splitNetloc (l : List Char) : List Char × List Char :=
  match l with
  | '/' :: '/' :: rest =>
    (rest.takeWhile (fun c => ¬ (c = '/' ∨ c = '?' ∨ c = '#')),
     rest.dropWhile (fun c => ¬ (c = '/' ∨ c = '?' ∨ c = '#')))
  | _ => ([], l)

def urlsplit (url : String) : UrlParts :=
  let (scheme, rest) := splitScheme url.data
  let (netloc, rest) := splitNetloc rest
  let (rest, fragment) :=
    match splitAtChar '#' rest with
    | none => (rest, ([] : List Char))
    | some (b, a) => (b, a)
  let (path, query) :=
    match splitAtChar '?' rest with
    | none => (rest, ([] : List Char))
    | some (b, a) => (b, a)
  { scheme := scheme, netloc := ⟨netloc⟩, path := ⟨path⟩,
    query := ⟨query⟩, fragment := ⟨fragment⟩ }

/-- Inverse direction, modelling `urllib.parse.urlunsplit` for the URL shapes
produced by the source (scheme and netloc rendered when non-empty). -/
def urlunsplit (p : UrlParts) : String :=
  (if p.scheme ≠ "" then p.scheme ++ ":" else "") ++
  (if p.netloc ≠ "" then "//" ++ p.netloc else "") ++
  p.path ++
  (if p.query ≠ "" then "?" ++ p.query else "") ++
  (if p.fragment ≠ "" then "#" ++ p.fragment else "")

/-- Directory part of a path: everything up to and including the last `/`;
a path with no `/` contributes a single root `/` (matching `urljoin` against
a netloc-only base). -/
def dirPart (p : String) : String :=
  let l := p.data.reverse
  match splitAtChar '/' l with
  | none => "/"
  | some (_, a) => ⟨('/' :: a).reverse⟩

/-- A model of `urllib.parse.urljoin` for http-style URLs: a reference with a
different scheme is returned as-is; a reference with a netloc keeps the base
scheme; otherwise an empty path keeps the base path, an absolute path replaces
it, and a relative path is appended to the directory of the base path.
CPython's dot-segment (`.`/`..`) normalisation is omitted — no claim below
involves dot segments. -/
def urljoin (base rel : String) : String :=
  if base = "" then rel
  else if rel = "" then base
  else
    let b := urlsplit base
    let r := urlsplit rel
    if r.scheme ≠ "" ∧ r.scheme ≠ b.scheme then rel
    else if r.netloc ≠ "" then
      urlunsplit { r with scheme := b.scheme }
    else if r.path = "" then
      urlunsplit { b with
        query := if r.query ≠ "" then r.query else b.query,
        fragment := r.fragment }
    else if r.path.data.head? = some '/' then
      urlunsplit { scheme := b.scheme, netloc := b.netloc, path := r.path,
                   query := r.query, fragment := r.fragment }
    else
      urlunsplit { scheme := b.scheme, netloc := b.netloc,
                   path := dirPart b.path ++ r.path,
                   query := r.query, fragment := r.fragment }

/-! ## Generator configuration and the URL classifier / resource store -/

/-- The constructor arguments of `ImprovedGhostStaticGenerator`:
`source_url`, `target_url` and the derived `public_dir`
(`os.path.join(repo_path, 'public')`). -/
structure Cfg where
  source_url : String
  target_url : String
  public_dir : String
deriving DecidableEq

/-- The concrete configuration built in `__main__`. -/
def defaultCfg : Cfg :=
  { source_url := "http://helium:2368"
    target_url := "https://cadenkraft.com"
    public_dir := "/home/ghost-static-site-gen/public" }

/-- `is_same_domain` (line 344): compare the `netloc` of the argument with the
`netloc` of `source_url`. -/
def is_same_domain (cfg : Cfg) (url : String) : Bool :=
  (urlsplit url).netloc = (urlsplit cfg.source_url).netloc

/-- `os.path.join` for one relative component on a POSIX system (the only
shape the source uses: the right component never starts with `/`). -/
def pyJoin (a b : String) : String :=
  if a = "" then b
  else if a.data.getLast? = some '/' then a ++ b
  else a ++ "/" ++ b

/-- The relative local path computed by `save_file` (lines 348–353): the
URL's path component with leading slashes stripped; an empty result becomes
`index.html` and a trailing slash gets `index.html` appended. -/
def save_relative_path (url : String) : String :=
  let relative_path := lstripSlashes (urlsplit url).path
  if relative_path = "" then "index.html"
  else if relative_path.data.getLast? = some '/' then relative_path ++ "index.html"
  else relative_path

/-- The absolute local path `save_file` writes to (line 355). -/
def savePathFor (cfg : Cfg) (url : String) : String :=
  pyJoin cfg.public_dir (save_relative_path url)

/-- The filesystem: an association list from absolute paths to file contents.
`fsSet` overwrites any previous entry at the path, modelling `open(path, 'w')`
followed by a full write. -/
abbrev Fs := List (String × String)

def fsSet : Fs → String → String → Fs
  | [], p, c => [(p, c)]
  | e :: t, p, c => if e.fst = p then (p, c) :: t else e :: fsSet t p c

def fsGet (fs : Fs) (path : String) : Option String :=
  (fs.find? (fun e => e.fst = path)).map (·.snd)

/-- `save_file` (lines 347–363) as a filesystem transformer.  The source's
`extension` parameter is accepted but (as in the source) never used; the
`is_binary` flag only selects the write mode and does not affect the bytes
written in this model. -/
def save_file (cfg : Cfg) (fs : Fs) (url content : String) : Fs :=
  fsSet fs (savePathFor cfg url) content

theorem fsGet_fsSet_self (fs : Fs) (p c : String) :
    fsGet (fsSet fs p c) p = some c := by
  induction fs with
  | nil => simp [fsSet, fsGet, List.find?]
  | cons e t ih =>
    by_cases he : e.fst = p
    · simp [fsSet, he, fsGet, List.find?]
    · simpa [fsSet, he, fsGet, List.find?] using ih

/-! ## Claims C5, C4, C9: the URL classifier and the resource store -/

/-- C5: for every URL `U`, the scope predicate `is_same_domain U` returns
true if and only if `U`'s network authority (netloc) equals the seed
origin's authority; scheme and path play no role, and any URL with a
different authority is rejected. -/
theorem C5_in_scope_iff_same_authority (cfg : Cfg) (url : String) :
    is_same_domain cfg url = true ↔
      (urlsplit url).netloc = (urlsplit cfg.source_url).netloc := by
  simp [is_same_domain]

theorem getLast?_dropWhile_of_ne_nil {p : Char → Bool} {l : List Char}
    (h : l.dropWhile p ≠ []) : (l.dropWhile p).getLast? = l.getLast? := by
  induction l with
  | nil => simp at h
  | cons c t ih =>
    by_cases hc : p c
    · rw [List.dropWhile_cons_of_pos hc] at h ⊢
      rw [ih h, List.getLast?_cons]
      have : t ≠ [] := by
        intro ht; rw [ht] at h; simp at h
      match t with
      | [] => simp at this
      | x :: r => rfl
    · rw [List.dropWhile_cons_of_neg hc]

/-- C4: the URL-to-local-path mapping is a pure function of the URL alone —
`save_file` always writes to `savePathFor url` whatever the prior filesystem
state and content are; a URL with an empty path maps to `index.html`, and a
URL whose path ends in `/` gets `index.html` appended under that directory. -/
theorem C4_path_mapping_pure (cfg : Cfg) (url : String) :
    (∀ fs content, save_file cfg fs url content =
        fsSet fs (savePathFor cfg url) content) ∧
    ((urlsplit url).path = "" → save_relative_path url = "index.html") ∧
    ((urlsplit url).path.data.getLast? = some '/' →
      save_relative_path url = lstripSlashes (urlsplit url).path ++ "index.html") := by
  refine ⟨fun fs content => rfl, ?_, ?_⟩
  · intro h
    simp [save_relative_path, lstripSlashes, h]
  · intro h
    unfold save_relative_path
    by_cases hz : lstripSlashes (urlsplit url).path = ""
    · rw [if_pos hz, hz]
      rfl
    · rw [if_neg hz]
      have hlast : (lstripSlashes (urlsplit url).path).data.getLast? = some '/' := by
        unfold lstripSlashes at hz ⊢
        have hne : (urlsplit url).path.data.dropWhile (· = '/') ≠ [] := by
          intro hh
          exact hz (by simp [lstripSlashes, hh])
        rw [getLast?_dropWhile_of_ne_nil hne]
        exact h
      rw [if_pos hlast]

/-- Witness for `C4_path_mapping_pure`: a concrete URL with a
directory-style (trailing-slash) path. -/
theorem C4_path_mapping_pure_witness :
    save_relative_path "http://helium:2368/blog/" =
      lstripSlashes (urlsplit "http://helium:2368/blog/").path ++ "index.html" :=
  (C4_path_mapping_pure defaultCfg "http://helium:2368/blog/").2.2 (by decide)

/-- C9: the local-path mapping discards query and fragment entirely — two
URLs that differ only in query/fragment share one local file path, and the
later of two saves overwrites the earlier one's content at that path. -/
theorem C9_query_fragment_discarded (cfg : Cfg) (u v c d : String) (fs : Fs)
    (_hscheme : (urlsplit u).scheme = (urlsplit v).scheme)
    (_hnetloc : (urlsplit u).netloc = (urlsplit v).netloc)
    (hpath : (urlsplit u).path = (urlsplit v).path) :
    savePathFor cfg u = savePathFor cfg v ∧
    fsGet (save_file cfg (save_file cfg fs u c) v d) (savePathFor cfg u) = some d := by
  have hp : savePathFor cfg u = savePathFor cfg v := by
    unfold savePathFor save_relative_path
    rw [hpath]
  refine ⟨hp, ?_⟩
  rw [hp]
  exact fsGet_fsSet_self _ _ _

/-- Witness for `C9_query_fragment_discarded`: the same path once with a
query string, once with a fragment — the second save wins. -/
theorem C9_query_fragment_discarded_witness :
    savePathFor defaultCfg "http://helium:2368/post?page=2" =
      savePathFor defaultCfg "http://helium:2368/post#top" ∧
    fsGet (save_file defaultCfg
            (save_file defaultCfg [] "http://helium:2368/post?page=2" "first")
            "http://helium:2368/post#top" "second")
          (savePathFor defaultCfg "http://helium:2368/post?page=2") = some "second" :=
  C9_query_fragment_discarded defaultCfg
    "http://helium:2368/post?page=2" "http://helium:2368/post#top"
    "first" "second" [] (by decide) (by decide) (by decide)

/-! ## Python `str.replace` (non-overlapping, left-to-right)

`repAllAux` is fuel-indexed so that concrete instances evaluate by kernel
reduction; `repAll` supplies the input's length as fuel, and the fuel is
erased again by the unfolding lemmas `repAll_nil` / `repAll_cons`. -/

def repAllAux (src tgt : List Char) : Nat → List Char → List Char
  | 0, s => s
  | _ + 1, [] => []
  | fuel + 1, c :: t =>
    if src ≠ [] ∧ src.isPrefixOf (c :: t) then
      tgt ++ repAllAux src tgt fuel ((c :: t).drop src.length)
    else
      c :: repAllAux src tgt fuel t

/-- Python `s.replace(src, tgt)` for a non-empty pattern `src`. -/
def repAll (src tgt s : List Char) : List Char :=
  repAllAux src tgt s.length s

theorem repAllAux_irrel (src tgt : List Char) :
    ∀ (f₁ f₂ : Nat) (s : List Char), s.length ≤ f₁ → s.length ≤ f₂ →
      repAllAux src tgt f₁ s = repAllAux src tgt f₂ s := by
  intro f₁
  induction f₁ with
  | zero =>
    intro f₂ s h₁ _
    have hs : s = [] := List.length_eq_zero.mp (Nat.le_zero.mp h₁)
    subst hs
    cases f₂ <;> rfl
  | succ f ih =>
    intro f₂ s h₁ h₂
    match s with
    | [] => cases f₂ <;> rfl
    | c :: t =>
      match f₂ with
      | 0 => simp at h₂
      | g + 1 =>
        simp only [repAllAux]
        by_cases hp : src ≠ [] ∧ src.isPrefixOf (c :: t)
        · rw [if_pos hp, if_pos hp]
          have hsrc1 : 1 ≤ src.length := by
            match src, hp.1 with
            | x :: r, _ => simp
          have hlen : ((c :: t).drop src.length).length ≤ t.length := by
            simp only [List.length_drop, List.length_cons]
            omega
          simp only [List.length_cons] at h₁ h₂
          rw [ih g _ (by omega) (by omega)]
        · rw [if_neg hp, if_neg hp]
          simp only [List.length_cons] at h₁ h₂
          rw [ih g t (by omega) (by omega)]

theorem repAll_nil (src tgt : List Char) : repAll src tgt [] = [] := rfl

theorem repAll_cons (src tgt : List Char) (c : Char) (t : List Char) :
    repAll src tgt (c :: t) =
      if src ≠ [] ∧ src.isPrefixOf (c :: t) then
        tgt ++ repAll src tgt ((c :: t).drop src.length)
      else
        c :: repAll src tgt t := by
  unfold repAll
  simp only [List.length_cons, repAllAux]
  by_cases hp : src ≠ [] ∧ src.isPrefixOf (c :: t)
  · rw [if_pos hp, if_pos hp]
    have hsrc1 : 1 ≤ src.length := by
      match src, hp.1 with
      | x :: r, _ => simp
    have hlen : ((c :: t).drop src.length).length ≤ t.length := by
      simp only [List.length_drop, List.length_cons]
      omega
    rw [repAllAux_irrel src tgt t.length ((c :: t).drop src.length).length _ hlen le_rfl]
  · rw [if_neg hp, if_neg hp]

/-- Python `s.replace(old, new)` on strings (for the non-empty patterns the
source uses). -/
def strReplace (s old new : String) : String := ⟨repAll old.data new.data s.data⟩

/-- `update_url` (lines 507–508): literal substring replacement of the
source origin by the target origin. -/
def update_url (cfg : Cfg) (url : String) : String :=
  strReplace url cfg.source_url cfg.target_url

/-- `update_all_urls` (lines 510–511): same replacement over a whole file. -/
def update_all_urls (cfg : Cfg) (content : String) : String :=
  strReplace content cfg.source_url cfg.target_url

/-! ## Claim C3: the format-augmentation pass (lines 445–486) -/

/-- `url_to_local_path` (lines 539–546): a root-relative URL maps directly
under `public_dir`; a URL whose netloc is neither the source's nor the
target's maps to `None`; otherwise the URL's path maps under `public_dir`. -/
def url_to_local_path (cfg : Cfg) (url : String) : Option String :=
  if url.data.head? = some '/' then
    some (pyJoin cfg.public_dir (lstripSlashes url))
  else
    let parsed := urlsplit url
    if parsed.netloc ≠ "" ∧ parsed.netloc ≠ (urlsplit cfg.source_url).netloc ∧
        parsed.netloc ≠ (urlsplit cfg.target_url).netloc then
      none
    else
      some (pyJoin cfg.public_dir (lstripSlashes parsed.path))

/-- `re.sub(r'\.[^.]+$', '.' ++ ext, s)` (line 475): replace a final
dot-plus-extension segment (one or more non-dot characters after the last
dot, reaching the end) by the new extension; no match leaves `s` unchanged. -/
def reSubLastExt (s ext : String) : String :=
  match splitAtChar '.' s.data.reverse with
  | none => s
  | some (b, a) => if b = [] then s else ⟨a.reverse⟩ ++ "." ++ ext

/-- The per-format `srcset` candidate list built by
`update_html_for_image_formats` for one `img` tag (lines 468–478): each
comma-separated entry of the original `srcset` is stripped; an entry with
exactly two whitespace-separated tokens `orig_src width` contributes
`update_url(new_src) ++ " " ++ width` exactly when
`new_src = re.sub(r'\.[^.]+$', '.fmt', orig_src)` maps to a local path that
exists on disk (`onDisk` models `os.path.exists`). -/
def formatEntryStep (cfg : Cfg) (onDisk : String → Bool) (format_ext : String)
    (src_entry : String) : Option String :=
  let e := pyStrip src_entry
  if e ≠ "" then
    match pySplitWs e with
    | [orig_src, width] =>
      let new_src := reSubLastExt orig_src format_ext
      match url_to_local_path cfg new_src with
      | some local_path =>
        if onDisk local_path then
          some (update_url cfg new_src ++ " " ++ width)
        else none
      | none => none
    | _ => none
  else none

def formatSrcsetEntries (cfg : Cfg) (onDisk : String → Bool)
    (original_srcset format_ext : String) : List String :=
  (splitOnChar ',' original_srcset).filterMap (formatEntryStep cfg onDisk format_ext)

/-- `if srcset:` (line 480) — a `source` element for the format is emitted
exactly when the candidate list is non-empty. -/
def emitsFormatSource (cfg : Cfg) (onDisk : String → Bool)
    (original_srcset format_ext : String) : Bool :=
  ¬ (formatSrcsetEntries cfg onDisk original_srcset format_ext).isEmpty

/-- Following the spec's words (the claim's emission condition): every entry
of the original `srcset` has a sibling variant file — same stem, the
format's extension — existing on disk. -/
def allEntriesHaveVariant (cfg : Cfg) (onDisk : String → Bool)
    (original_srcset format_ext : String) : Bool :=
  (((splitOnChar ',' original_srcset).map pyStrip).filter (· ≠ "")).all (fun e =>
    match pySplitWs e with
    | orig_src :: _ =>
      match url_to_local_path cfg (reSubLastExt orig_src format_ext) with
      | some p => onDisk p
      | none => false
    | [] => false)

/-- A disk state on which only the 400-pixel webp variant exists. -/
def c3Disk : String → Bool :=
  fun p => p = "/home/ghost-static-site-gen/public/a-400.webp"

/-- C3 counterexample: with `srcset="/a-400.jpg 400w, /a-800.jpg 800w"` and
only the 400w webp variant on disk, the code still emits a webp `source`
(with just the one entry) even though not every entry has a variant —
refuting the claimed "if and only if every entry ... exists on disk". -/
theorem C3_counterexample :
    emitsFormatSource defaultCfg c3Disk "/a-400.jpg 400w, /a-800.jpg 800w" "webp" = true ∧
    allEntriesHaveVariant defaultCfg c3Disk "/a-400.jpg 400w, /a-800.jpg 800w" "webp" = false ∧
    formatSrcsetEntries defaultCfg c3Disk "/a-400.jpg 400w, /a-800.jpg 800w" "webp" =
      ["/a-400.webp 400w"] := by
  refine ⟨?_, ?_, ?_⟩ <;> decide

/-- The stripped, non-empty comma-separated entries of a `srcset` value. -/
def srcsetEntries (s : String) : List String :=
  ((splitOnChar ',' s).map pyStrip).filter (· ≠ "")

/-- Does a (stripped) srcset entry consist of exactly two tokens whose URL
token has a format variant on disk? -/
def entryVariantOnDisk (cfg : Cfg) (onDisk : String → Bool) (format_ext : String)
    (e : String) : Bool :=
  match pySplitWs e with
  | [orig_src, _] =>
    match url_to_local_path cfg (reSubLastExt orig_src format_ext) with
    | some p => onDisk p
    | none => false
  | _ => false

/-- The rewritten candidate produced for a two-token srcset entry. -/
def renderFormatEntry (cfg : Cfg) (format_ext : String) (e : String) : String :=
  match pySplitWs e with
  | [orig_src, width] => update_url cfg (reSubLastExt orig_src format_ext) ++ " " ++ width
  | _ => e

/-- C3 amended: a format-specific `source` element is emitted iff **at least
one** two-token entry of the original `srcset` has a sibling variant of that
format on disk; its `srcset` then lists exactly the `update_url`-rewritten
variant URLs of those entries, with their width descriptors. -/
theorem C3_amended_source_emission (cfg : Cfg) (onDisk : String → Bool)
    (original_srcset format_ext : String) :
    formatSrcsetEntries cfg onDisk original_srcset format_ext =
      ((srcsetEntries original_srcset).filter
          (entryVariantOnDisk cfg onDisk format_ext)).map
        (renderFormatEntry cfg format_ext) ∧
    (emitsFormatSource cfg onDisk original_srcset format_ext = true ↔
      ∃ e ∈ srcsetEntries original_srcset,
        entryVariantOnDisk cfg onDisk format_ext e = true) := by
  have point : ∀ x : String,
      formatEntryStep cfg onDisk format_ext x =
        if (pyStrip x ≠ "" && entryVariantOnDisk cfg onDisk format_ext (pyStrip x)) then
          some (renderFormatEntry cfg format_ext (pyStrip x))
        else none := by
    intro x
    unfold formatEntryStep
    by_cases hne : pyStrip x = ""
    · simp [hne]
    · simp only [hne, ne_eq, not_false_eq_true, if_true, decide_not]
      match hsplit : pySplitWs (pyStrip x) with
      | [orig_src, width] =>
        simp only [entryVariantOnDisk, renderFormatEntry, hsplit]
        match hpath : url_to_local_path cfg (reSubLastExt orig_src format_ext) with
        | some p =>
          by_cases hdisk : onDisk p
          · simp [hne, hdisk]
          · simp [hne, hdisk]
        | none => simp [hne]
      | [] => simp [entryVariantOnDisk, hsplit, hne]
      | [a] => simp [entryVariantOnDisk, hsplit, hne]
      | a :: b :: c :: r => simp [entryVariantOnDisk, hsplit, hne]
  have main : formatSrcsetEntries cfg onDisk original_srcset format_ext =
      ((srcsetEntries original_srcset).filter
          (entryVariantOnDisk cfg onDisk format_ext)).map
        (renderFormatEntry cfg format_ext) := by
    unfold formatSrcsetEntries srcsetEntries
    induction splitOnChar ',' original_srcset with
    | nil => rfl
    | cons x L ih =>
      rw [List.filterMap_cons, point x, List.map_cons, List.filter_cons]
      by_cases hne : pyStrip x = ""
      · have hd : (decide (pyStrip x ≠ "")) = false := by simp [hne]
        simp only [hd, Bool.false_and, Bool.false_eq_true, if_false]
        simpa [hne] using ih
      · have hd : (decide (pyStrip x ≠ "")) = true := by simp [hne]
        simp only [hd, Bool.true_and, if_true]
        by_cases hv : entryVariantOnDisk cfg onDisk format_ext (pyStrip x) = true
        · simp [hv, List.filter_cons, ih]
        · have hv' : entryVariantOnDisk cfg onDisk format_ext (pyStrip x) = false := by
            simpa using hv
          simp [hv', List.filter_cons, ih]
  refine ⟨main, ?_⟩
  unfold emitsFormatSource
  rw [main]
  constructor
  · intro h
    simp only [decide_eq_true_eq, List.isEmpty_iff] at h
    match hL : (srcsetEntries original_srcset).filter
        (entryVariantOnDisk cfg onDisk format_ext) with
    | [] => rw [hL] at h; simp at h
    | e :: r =>
      have he : e ∈ (srcsetEntries original_srcset).filter
          (entryVariantOnDisk cfg onDisk format_ext) := by
        rw [hL]; exact List.mem_cons_self e r
      have := List.mem_filter.mp he
      exact ⟨e, this.1, this.2⟩
  · intro ⟨e, hmem, hvar⟩
    simp only [decide_eq_true_eq, List.isEmpty_iff]
    intro hmapnil
    have : e ∈ (srcsetEntries original_srcset).filter
        (entryVariantOnDisk cfg onDisk format_ext) :=
      List.mem_filter.mpr ⟨hmem, hvar⟩
    rw [List.map_eq_nil_iff.mp hmapnil] at this
    simp at this

/-! ## String-rewriting theory for the global URL rewrite pass

The fixed-point property of `update_urls_in_all_files` rests on the fact
that replacing `source_url` by `target_url` leaves no occurrence of
`source_url` behind — provable whenever the two strings do not overlap in the
ways axiomatised by the `F*` hypotheses below (and checked by `decide` for
the generator's concrete origin strings). -/

theorem prefix_append_cases {xs zs : List Char} :
    ∀ {ys : List Char}, xs <+: ys ++ zs →
      xs <+: ys ∨ ∃ w, xs = ys ++ w ∧ w <+: zs := by
  intro ys
  induction ys generalizing xs with
  | nil =>
    intro h
    exact Or.inr ⟨xs, by simp, by simpa using h⟩
  | cons c ys' ih =>
    intro h
    match xs with
    | [] => exact Or.inl (List.nil_prefix)
    | x :: xs' =>
      rw [List.cons_append] at h
      rcases List.cons_prefix_cons.mp h with ⟨hx, hxs⟩
      rcases ih hxs with h2 | ⟨w, hw, hwz⟩
      · exact Or.inl (List.cons_prefix_cons.mpr ⟨hx, h2⟩)
      · exact Or.inr ⟨w, by rw [hx, hw]; rfl, hwz⟩

theorem infix_append_cases {xs : List Char} :
    ∀ {ys zs : List Char}, xs <:+: ys ++ zs →
      xs <:+: ys ∨ xs <:+: zs ∨
        ∃ x₁ x₂, x₁ ++ x₂ = xs ∧ x₁ ≠ [] ∧ x₂ ≠ [] ∧ x₁ <:+ ys ∧ x₂ <+: zs := by
  intro ys zs
  induction ys generalizing xs with
  | nil =>
    intro h
    exact Or.inr (Or.inl (by simpa using h))
  | cons c ys' ih =>
    intro h
    rw [List.cons_append] at h
    rcases List.infix_cons_iff.mp h with hpre | hrest
    · match xs with
      | [] => exact Or.inl (List.nil_infix)
      | x :: xs' =>
        rcases List.cons_prefix_cons.mp hpre with ⟨hx, hxs⟩
        rcases prefix_append_cases hxs with h2 | ⟨w, hw, hwz⟩
        · exact Or.inl (List.IsPrefix.isInfix (List.cons_prefix_cons.mpr ⟨hx, h2⟩))
        · match w, hwz with
          | [], _ =>
            refine Or.inl ?_
            have : x :: xs' = c :: ys' := by rw [hx, hw]; simp
            rw [this]
          | w₀ :: wr, hwz =>
            refine Or.inr (Or.inr ⟨c :: ys', w₀ :: wr, ?_, by simp, by simp,
              List.suffix_refl _, hwz⟩)
            rw [hx, hw]
            rfl
    · rcases ih hrest with h2 | h2 | ⟨x₁, x₂, hx, h1, h2, hs, hp⟩
      · exact Or.inl (List.infix_cons_iff.mpr (Or.inr h2))
      · exact Or.inr (Or.inl h2)
      · refine Or.inr (Or.inr ⟨x₁, x₂, hx, h1, h2, ?_, hp⟩)
        exact hs.trans (List.suffix_cons c ys')

/-- First-occurrence decomposition of `repAll`: either the pattern does not
occur and the string is returned unchanged, or the string splits around the
first occurrence and `repAll` substitutes there and continues to the right. -/
theorem repAll_decomp (src tgt : List Char) (hsrc : src ≠ []) :
    ∀ s : List Char,
      (¬ src <:+: s ∧ repAll src tgt s = s) ∨
      (∃ a b, s = a ++ src ++ b ∧ ¬ src <:+: a ∧
        repAll src tgt s = a ++ tgt ++ repAll src tgt b) := by
  intro s
  induction s with
  | nil =>
    refine Or.inl ⟨?_, repAll_nil src tgt⟩
    rw [List.infix_nil]
    exact hsrc
  | cons c t ih =>
    by_cases hpre : src <+: c :: t
    · rcases hpre with ⟨b, hb⟩
      refine Or.inr ⟨[], b, by rw [← hb]; rfl, by simp [List.infix_nil, hsrc], ?_⟩
      rw [repAll_cons]
      rw [if_pos ⟨hsrc, List.isPrefixOf_iff_prefix.mpr ⟨b, hb⟩⟩]
      have hdrop : (c :: t).drop src.length = b := by
        rw [← hb]
        exact List.drop_left src b
      rw [hdrop]
      rfl
    · have hcons : repAll src tgt (c :: t) = c :: repAll src tgt t := by
        rw [repAll_cons, if_neg]
        intro ⟨_, hp⟩
        exact hpre (List.isPrefixOf_iff_prefix.mp hp)
      rcases ih with ⟨hni, heq⟩ | ⟨a, b, hab, hnia, heq⟩
      · refine Or.inl ⟨?_, by rw [hcons, heq]⟩
        intro hinf
        rcases List.infix_cons_iff.mp hinf with h | h
        · exact hpre h
        · exact hni h
      · refine Or.inr ⟨c :: a, b, by rw [hab]; rfl, ?_, ?_⟩
        · intro hinf
          rcases List.infix_cons_iff.mp hinf with h | h
          · have : src <+: c :: t := by
              rw [hab]
              exact h.trans (by simp)
            exact hpre this
          · exact hnia h
        · rw [hcons, heq]
          rfl

/-- After a full replacement pass, the pattern no longer occurs — provided
the pattern does not occur in the replacement (`F1`), no non-empty suffix of
the replacement is a prefix of the pattern (`F2`), no non-empty suffix of the
pattern is a prefix of the replacement (`F4`), and the replacement does not
occur inside the pattern (`F5`). -/
theorem repAll_no_occurrence (src tgt : List Char) (hsrc : src ≠ [])
    (F1 : ¬ src <:+: tgt)
    (F2 : ∀ x, x <:+ tgt → x ≠ [] → ¬ x <+: src)
    (F4 : ∀ x, x <:+ src → x ≠ [] → ¬ x <+: tgt)
    (F5 : ¬ tgt <:+: src) :
    ∀ s : List Char, ¬ src <:+: repAll src tgt s := by
  have H : ∀ n : Nat, ∀ s : List Char, s.length ≤ n → ¬ src <:+: repAll src tgt s := by
    intro n
    induction n with
    | zero =>
      intro s hs
      have : s = [] := List.length_eq_zero.mp (Nat.le_zero.mp hs)
      subst this
      rw [repAll_nil, List.infix_nil]
      exact hsrc
    | succ n ih =>
      intro s hs
      rcases repAll_decomp src tgt hsrc s with ⟨hni, heq⟩ | ⟨a, b, hab, hnia, heq⟩
      · rw [heq]; exact hni
      · rw [heq]
        intro hinf
        have hblen : b.length ≤ n := by
          have : s.length = a.length + src.length + b.length := by
            rw [hab]
            simp [List.length_append]
            omega
          have hsrc1 : 1 ≤ src.length := by
            match src, hsrc with
            | x :: r, _ => simp
          omega
        rw [List.append_assoc] at hinf
        rcases infix_append_cases hinf with h | h | ⟨x₁, x₂, hx, hx₁ne, hx₂ne, hx₁, hx₂⟩
        · exact hnia h
        · rcases infix_append_cases h with h2 | h2 | ⟨y₁, y₂, hy, hy₁ne, _, hy₁, hy₂⟩
          · exact F1 h2
          · exact ih b hblen h2
          · exact F2 y₁ hy₁ hy₁ne ⟨y₂, hy⟩
        · rcases prefix_append_cases hx₂ with h2 | ⟨w, hw, _⟩
          · exact F4 x₂ ⟨x₁, hx⟩ hx₂ne h2
          · refine F5 (List.infix_iff_prefix_suffix.mpr ⟨x₂, ⟨w, hw.symm⟩, ⟨x₁, hx⟩⟩)
  intro s
  exact H s.length s le_rfl

/-- A replacement pass is the identity on a string in which the pattern does
not occur. -/
theorem repAll_id_of_no_occurrence (src tgt : List Char) :
    ∀ s : List Char, ¬ src <:+: s → repAll src tgt s = s := by
  intro s
  induction s with
  | nil => intro _; exact repAll_nil src tgt
  | cons c t ih =>
    intro hni
    rw [repAll_cons, if_neg, ih]
    · intro h
      exact hni (List.infix_cons_iff.mpr (Or.inr h))
    · intro ⟨_, hp⟩
      exact hni (List.IsPrefix.isInfix (List.isPrefixOf_iff_prefix.mp hp))

/-- Replacement is idempotent under the overlap-freedom conditions. -/
theorem repAll_idem (src tgt : List Char) (hsrc : src ≠ [])
    (F1 : ¬ src <:+: tgt)
    (F2 : ∀ x, x <:+ tgt → x ≠ [] → ¬ x <+: src)
    (F4 : ∀ x, x <:+ src → x ≠ [] → ¬ x <+: tgt)
    (F5 : ¬ tgt <:+: src) (s : List Char) :
    repAll src tgt (repAll src tgt s) = repAll src tgt s :=
  repAll_id_of_no_occurrence src tgt _ (repAll_no_occurrence src tgt hsrc F1 F2 F4 F5 s)

/-- The overlap-freedom side conditions hold for the generator's concrete
origin strings. -/
theorem defaultCfg_overlap_free :
    defaultCfg.source_url.data ≠ [] ∧
    ¬ defaultCfg.source_url.data <:+: defaultCfg.target_url.data ∧
    (∀ x, x <:+ defaultCfg.target_url.data → x ≠ [] → ¬ x <+: defaultCfg.source_url.data) ∧
    (∀ x, x <:+ defaultCfg.source_url.data → x ≠ [] → ¬ x <+: defaultCfg.target_url.data) ∧
    ¬ defaultCfg.target_url.data <:+: defaultCfg.source_url.data := by
  refine ⟨by decide, by decide, ?_, ?_, by decide⟩
  · intro x hx hne hpre
    have hmem : x ∈ (defaultCfg.target_url.data).tails := (List.mem_tails _ _).mpr hx
    have hall : ∀ y ∈ (defaultCfg.target_url.data).tails,
        y = [] ∨ y.isPrefixOf defaultCfg.source_url.data = false := by decide
    rcases hall x hmem with h | h
    · exact hne h
    · rw [List.isPrefixOf_iff_prefix.mpr hpre] at h
      simp at h
  · intro x hx hne hpre
    have hmem : x ∈ (defaultCfg.source_url.data).tails := (List.mem_tails _ _).mpr hx
    have hall : ∀ y ∈ (defaultCfg.source_url.data).tails,
        y = [] ∨ y.isPrefixOf defaultCfg.target_url.data = false := by decide
    rcases hall x hmem with h | h
    · exact hne h
    · rw [List.isPrefixOf_iff_prefix.mpr hpre] at h
      simp at h

/-- Specialisation: no occurrence of the source origin survives
`update_all_urls` with the generator's concrete configuration. -/
theorem update_all_urls_no_source (c : String) :
    ¬ defaultCfg.source_url.data <:+: (update_all_urls defaultCfg c).data := by
  obtain ⟨h0, h1, h2, h4, h5⟩ := defaultCfg_overlap_free
  exact repAll_no_occurrence _ _ h0 h1 h2 h4 h5 c.data

/-! ## Claims C7 and C10: the global URL rewrite pass (lines 513–537) -/

/-- The literal text opening an iframe `src` attribute in serialised HTML. -/
def iframeMarker : List Char := "<iframe src=\"".data

/-- The HTML-specific sub-step of `update_urls_in_all_files` (lines 526–532):
parse the document, pass every iframe `src` attribute value through
`update_url`, and re-serialise.  BeautifulSoup's parse/serialise round trip
is modelled as an exact in-place scan of the text: each value enclosed in
`<iframe src="` … `"` is rewritten and every other character is kept
verbatim.  (Fuel-indexed like `repAllAux`, so concrete runs evaluate.) -/
def updIframeAux (src tgt : List Char) : Nat → List Char → List Char
  | 0, s => s
  | _ + 1, [] => []
  | fuel + 1, c :: t =>
    if iframeMarker.isPrefixOf (c :: t) then
      match splitAtChar '"' ((c :: t).drop iframeMarker.length) with
      | some (val, after) =>
        iframeMarker ++ repAll src tgt val ++ '"' :: updIframeAux src tgt fuel after
      | none => c :: t
    else c :: updIframeAux src tgt fuel t

def updateIframeSrcsL (src tgt s : List Char) : List Char :=
  updIframeAux src tgt s.length s

theorem updIframeAux_irrel (src tgt : List Char) :
    ∀ (f₁ f₂ : Nat) (s : List Char), s.length ≤ f₁ → s.length ≤ f₂ →
      updIframeAux src tgt f₁ s = updIframeAux src tgt f₂ s := by
  intro f₁
  induction f₁ with
  | zero =>
    intro f₂ s h₁ _
    have hs : s = [] := List.length_eq_zero.mp (Nat.le_zero.mp h₁)
    subst hs
    cases f₂ <;> rfl
  | succ f ih =>
    intro f₂ s h₁ h₂
    match s with
    | [] => cases f₂ <;> rfl
    | c :: t =>
      match f₂ with
      | 0 => simp at h₂
      | g + 1 =>
        simp only [updIframeAux]
        by_cases hp : iframeMarker.isPrefixOf (c :: t)
        · rw [if_pos hp, if_pos hp]
          match hsp : splitAtChar '"' ((c :: t).drop iframeMarker.length) with
          | some (val, after) =>
            have hlen : after.length < ((c :: t).drop iframeMarker.length).length :=
              splitAtChar_length '"' _ val after hsp
            have hdlen : ((c :: t).drop iframeMarker.length).length ≤ t.length := by
              simp only [List.length_drop, List.length_cons]
              have : 1 ≤ iframeMarker.length := by decide
              omega
            simp only [List.length_cons] at h₁ h₂
            dsimp only
            rw [ih g after (by omega) (by omega)]
          | none => rfl
        · rw [if_neg hp, if_neg hp]
          simp only [List.length_cons] at h₁ h₂
          rw [ih g t (by omega) (by omega)]

theorem updateIframeSrcsL_nil (src tgt : List Char) :
    updateIframeSrcsL src tgt [] = [] := rfl

theorem updateIframeSrcsL_cons (src tgt : List Char) (c : Char) (t : List Char) :
    updateIframeSrcsL src tgt (c :: t) =
      if iframeMarker.isPrefixOf (c :: t) then
        match splitAtChar '"' ((c :: t).drop iframeMarker.length) with
        | some (val, after) =>
          iframeMarker ++ repAll src tgt val ++ '"' :: updateIframeSrcsL src tgt after
        | none => c :: t
      else c :: updateIframeSrcsL src tgt t := by
  unfold updateIframeSrcsL
  simp only [List.length_cons, updIframeAux]
  by_cases hp : iframeMarker.isPrefixOf (c :: t)
  · rw [if_pos hp, if_pos hp]
    match hsp : splitAtChar '"' ((c :: t).drop iframeMarker.length) with
    | some (val, after) =>
      have hlen : after.length < ((c :: t).drop iframeMarker.length).length :=
        splitAtChar_length '"' _ val after hsp
      have hdlen : ((c :: t).drop iframeMarker.length).length ≤ t.length := by
        simp only [List.length_drop, List.length_cons]
        have : 1 ≤ iframeMarker.length := by decide
        omega
      dsimp only
      rw [updIframeAux_irrel src tgt t.length after.length after (by omega) le_rfl]
    | none => rfl
  · rw [if_neg hp, if_neg hp]

/-- On a text without any occurrence of the pattern, the iframe-src rewrite
is the identity: every attribute value it touches is an infix of the text, so
`update_url` leaves it unchanged. -/
theorem updateIframeSrcsL_id_of_no_occurrence (src tgt : List Char) :
    ∀ s : List Char, ¬ src <:+: s → updateIframeSrcsL src tgt s = s := by
  have H : ∀ n : Nat, ∀ s : List Char, s.length ≤ n → ¬ src <:+: s →
      updateIframeSrcsL src tgt s = s := by
    intro n
    induction n with
    | zero =>
      intro s hs _
      have : s = [] := List.length_eq_zero.mp (Nat.le_zero.mp hs)
      subst this
      rfl
    | succ n ih =>
      intro s hs hni
      match s with
      | [] => rfl
      | c :: t =>
        rw [updateIframeSrcsL_cons]
        by_cases hp : iframeMarker.isPrefixOf (c :: t)
        · rw [if_pos hp]
          match hsp : splitAtChar '"' ((c :: t).drop iframeMarker.length) with
          | some (val, after) =>
            have hpre := List.isPrefixOf_iff_prefix.mp hp
            have hform : c :: t = iframeMarker ++ (val ++ '"' :: after) := by
              have h1 : iframeMarker ++ (c :: t).drop iframeMarker.length = c :: t :=
                List.prefix_iff_eq_append.mp hpre
              have h2 := splitAtChar_spec '"' _ val after hsp
              rw [← h1, h2]
            have hval : ¬ src <:+: val := by
              intro hin
              exact hni (hin.trans ⟨iframeMarker, '"' :: after, by rw [hform]; simp⟩)
            have hafter : ¬ src <:+: after := by
              intro hin
              refine hni (hin.trans ?_)
              refine ⟨iframeMarker ++ val ++ ['"'], [], ?_⟩
              rw [hform]
              simp
            have hlen : after.length ≤ n := by
              have := congrArg List.length hform
              simp only [List.length_cons, List.length_append] at this hs
              omega
            dsimp only
            rw [repAll_id_of_no_occurrence src tgt val hval, ih after hlen hafter]
            rw [hform]
            simp
          | none => rfl
        · rw [if_neg hp]
          have ht : ¬ src <:+: t := fun h => hni (List.infix_cons_iff.mpr (Or.inr h))
          simp only [List.length_cons] at hs
          rw [ih t (by omega) ht]
  intro s
  exact H s.length s le_rfl

/-- String-level wrapper for the iframe-src rewrite. -/
def updateIframeSrcs (cfg : Cfg) (s : String) : String :=
  ⟨updateIframeSrcsL cfg.source_url.data cfg.target_url.data s.data⟩

theorem updateIframeSrcs_id_of_no_occurrence (cfg : Cfg) (s : String)
    (h : ¬ cfg.source_url.data <:+: s.data) : updateIframeSrcs cfg s = s := by
  unfold updateIframeSrcs
  rw [updateIframeSrcsL_id_of_no_occurrence _ _ _ h]

/-- `os.path` basename: the part after the last `/`. -/
def basenameOf (p : String) : String :=
  match splitAtChar '/' p.data.reverse with
  | none => p
  | some (b, _) => ⟨b.reverse⟩

/-- `os.path.splitext(...)[1]`: the extension of the basename — from the last
dot, except that the leading run of dots of the basename never starts an
extension. -/
def fileExt (p : String) : String :=
  let b := (basenameOf p).data
  let rest := b.drop ((b.takeWhile (· = '.')).length)
  match splitAtChar '.' rest.reverse with
  | none => ""
  | some (suf, _) => ⟨'.' :: suf.reverse⟩

/-- `file_extension.lower()` of a path's basename (line 517). -/
def extLower (p : String) : String := asciiLower (fileExt p)

/-- The extension whitelist of the global rewrite pass (line 519). -/
def textExts : List String := [".html", ".xml", ".css", ".js", ".json"]

/-- One file's content transformation in `update_urls_in_all_files`
(lines 520–532): replace every occurrence of the source origin, then, for
`.html` files only, re-serialise with iframe `src` attributes passed through
`update_url`. -/
def transformContent (cfg : Cfg) (ext : String) (c : String) : String :=
  let updated := update_all_urls cfg c
  if ext = ".html" then updateIframeSrcs cfg updated
  else updated

/-- The write-back condition of line 534: the file is rewritten on disk only
when its updated content differs from what was read. -/
def needsWrite (cfg : Cfg) (e : String × String) : Bool :=
  extLower e.1 ∈ textExts ∧ transformContent cfg (extLower e.1) e.2 ≠ e.2

/-- `update_urls_in_all_files` (lines 513–537) over the modelled filesystem:
returns the updated tree together with the list of paths actually written. -/
def update_urls_in_all_files (cfg : Cfg) (fs : Fs) : Fs × List String :=
  (fs.map (fun e =>
      if extLower e.1 ∈ textExts then (e.1, transformContent cfg (extLower e.1) e.2)
      else e),
   (fs.filter (needsWrite cfg)).map (·.1))

/-- With the generator's concrete origins, a second content transformation
changes nothing: the first pass removed every occurrence of the source
origin, so the replacement and the iframe rewrite both become the identity. -/
theorem transformContent_idem (ext c : String) :
    transformContent defaultCfg ext (transformContent defaultCfg ext c) =
      transformContent defaultCfg ext c := by
  obtain ⟨h0, h1, h2, h4, h5⟩ := defaultCfg_overlap_free
  have hno : ¬ defaultCfg.source_url.data <:+: (update_all_urls defaultCfg c).data :=
    update_all_urls_no_source c
  have hidem : update_all_urls defaultCfg (update_all_urls defaultCfg c) =
      update_all_urls defaultCfg c := by
    unfold update_all_urls strReplace
    exact congrArg String.mk (repAll_idem _ _ h0 h1 h2 h4 h5 c.data)
  unfold transformContent
  by_cases hh : ext = ".html"
  · subst hh
    show updateIframeSrcs defaultCfg
        (update_all_urls defaultCfg
          (updateIframeSrcs defaultCfg (update_all_urls defaultCfg c))) =
      updateIframeSrcs defaultCfg (update_all_urls defaultCfg c)
    rw [updateIframeSrcs_id_of_no_occurrence _ _ hno, hidem,
        updateIframeSrcs_id_of_no_occurrence _ _ hno]
  · simp only [if_neg hh]
    exact hidem

/-- C7: the global URL rewrite pass is a fixed point — running it again on
its own output leaves the tree unchanged and performs no write — and within
one application a file is written back exactly when its content changed. -/
theorem C7_global_rewrite_fixed_point (fs : Fs) :
    (update_urls_in_all_files defaultCfg
        (update_urls_in_all_files defaultCfg fs).1).1 =
      (update_urls_in_all_files defaultCfg fs).1 ∧
    (update_urls_in_all_files defaultCfg
        (update_urls_in_all_files defaultCfg fs).1).2 = [] ∧
    (update_urls_in_all_files defaultCfg fs).2 =
      (fs.filter (needsWrite defaultCfg)).map (·.1) := by
  refine ⟨?_, ?_, rfl⟩
  · unfold update_urls_in_all_files
    simp only [List.map_map]
    apply List.map_congr_left
    intro e _
    by_cases he : extLower e.1 ∈ textExts
    · simp [he, transformContent_idem]
    · simp [he]
  · unfold update_urls_in_all_files
    simp only
    rw [List.map_eq_nil_iff, List.filter_eq_nil_iff]
    intro e he
    rcases List.mem_map.mp he with ⟨e₀, _, hstep⟩
    unfold needsWrite
    by_cases h0 : extLower e₀.1 ∈ textExts
    · rw [if_pos h0] at hstep
      subst hstep
      simp [h0, transformContent_idem]
    · rw [if_neg h0] at hstep
      subst hstep
      simp [h0]

/-- C10: the global URL rewrite pass also processes `.json` files — each one
ends up with every literal occurrence of the source origin replaced (none
remains afterwards). -/
theorem C10_json_files_rewritten (fs : Fs) (p c : String)
    (hmem : (p, c) ∈ fs) (hext : extLower p = ".json") :
    (p, update_all_urls defaultCfg c) ∈ (update_urls_in_all_files defaultCfg fs).1 ∧
    ¬ defaultCfg.source_url.data <:+: (update_all_urls defaultCfg c).data ∧
    ".json" ∈ textExts := by
  refine ⟨?_, update_all_urls_no_source c, by decide⟩
  unfold update_urls_in_all_files
  simp only
  have hin : extLower p ∈ textExts := by rw [hext]; decide
  have : (fun (e : String × String) =>
      if extLower e.1 ∈ textExts then (e.1, transformContent defaultCfg (extLower e.1) e.2)
      else e) (p, c) = (p, update_all_urls defaultCfg c) := by
    simp only [hin, if_pos hin]
    unfold transformContent
    rw [hext]
    simp
  rw [← this]
  exact List.mem_map_of_mem _ hmem

/-- Witness for `C10_json_files_rewritten`: a concrete tree holding one
`.json` file that mentions the source origin. -/
theorem C10_json_files_rewritten_witness :
    ("/home/ghost-static-site-gen/public/feed.json",
      update_all_urls defaultCfg "a http://helium:2368/x b") ∈
      (update_urls_in_all_files defaultCfg
        [("/home/ghost-static-site-gen/public/feed.json",
          "a http://helium:2368/x b")]).1 :=
  (C10_json_files_rewritten
    [("/home/ghost-static-site-gen/public/feed.json", "a http://helium:2368/x b")]
    "/home/ghost-static-site-gen/public/feed.json" "a http://helium:2368/x b"
    (by decide) (by decide)).1

/-! ## The crawl engine (lines 87–345)

The network is an oracle `Site : String → Reply`; a successful reply carries
the HTTP status, the `content-type` header, the body text, and the document
as BeautifulSoup would parse it (a list of tags in document order).  Every
side effect of the Python code — fetch, sleep, log, save — is recorded in an
event trace inside `CrawlState`, and the mutable `visited_urls` / `file_urls`
sets and the output tree are carried explicitly. -/

inductive FetchOrigin
  | main       -- `requests.get` in `scrape_url` (line 111)
  | sizesPage  -- page re-fetch in `scrape_image_sizes` (line 162)
  | sizesImage -- responsive-image fetch (line 179)
  | bgImage    -- background-image fetch (line 196)
  | metaPage   -- page re-fetch in `scrape_meta_images` (line 138)
  | metaImage  -- metadata-image fetch (line 150)
  | iframeDoc  -- frame-document fetch in `scrape_iframe_content` (line 211)
deriving DecidableEq

inductive Event
  | fetch (origin : FetchOrigin) (url : String)
  | sleepEv
  | errorLog (url : String)
  | warnLog (url : String)
  | saveEv (path : String)
deriving DecidableEq

/-- One parsed HTML tag: name, attributes, and (for `style` elements) the
enclosed string content. -/
structure Tag where
  name : String
  attrs : List (String × String)
  text : String
deriving DecidableEq

/-- `tag.get(attr)` — `None` when absent. -/
def Tag.get (t : Tag) (a : String) : Option String :=
  (t.attrs.find? (fun e => e.fst = a)).map (·.snd)

/-- `tag[attr] = v`. -/
def Tag.setAttr (t : Tag) (k v : String) : Tag :=
  { t with attrs :=
      if t.attrs.any (fun e => e.fst = k) then
        t.attrs.map (fun e => if e.fst = k then (k, v) else e)
      else t.attrs ++ [(k, v)] }

/-- A parsed HTML document: the tags in document order, plus the matches of
the resource-literal regular expression that `scrape_iframe_content` runs
over the raw text (line 241); the regex engine itself is external to the
claims, so its match list travels with the parsed document. -/
structure HtmlDoc where
  tags : List Tag
  resourceMatches : List String
deriving DecidableEq

inductive Reply
  | transportError
  | response (status : Nat) (contentType : String) (body : String) (doc : HtmlDoc)
deriving DecidableEq

abbrev Site := String → Reply

structure CrawlState where
  visited : List String
  fileUrls : List String
  files : Fs
  events : List Event
deriving DecidableEq

def initState : CrawlState := ⟨[], [], [], []⟩

def addEvent (st : CrawlState) (e : Event) : CrawlState :=
  { st with events := st.events ++ [e] }

/-- `self.file_urls.add(url)` (insertion-ordered model of the set). -/
def addFileUrl (st : CrawlState) (url : String) : CrawlState :=
  if url ∈ st.fileUrls then st else { st with fileUrls := st.fileUrls ++ [url] }

/-- `save_file` as called during the crawl: write the bytes and log the save. -/
def save_file_st (cfg : Cfg) (st : CrawlState) (url content : String) : CrawlState :=
  { st with files := fsSet st.files (savePathFor cfg url) content,
            events := st.events ++ [.saveEv (savePathFor cfg url)] }

/-- `response.raise_for_status()` raises exactly for statuses 400–599. -/
def isHttpError (status : Nat) : Bool := 400 ≤ status ∧ status < 600

/-- Python's `x or y` chain over optional attribute values, with string
truthiness: the first present non-empty value wins; an absent or empty final
operand yields nothing. -/
def pyOrOpt (a b : Option String) : Option String :=
  match a with
  | some s => if s = "" then b else some s
  | none => b

/-- `tag.get('href') or tag.get('src') or tag.get('data-src')` followed by
`if attr:` (lines 305–306): the first truthy attribute, if any. -/
def attrVal (t : Tag) : Option String :=
  match pyOrOpt (t.get "href") (pyOrOpt (t.get "src") (t.get "data-src")) with
  | some s => if s = "" then none else some s
  | none => none

/-- `img.get('srcset') or img.get('data-srcset', '')` (line 170). -/
def srcsetOf (t : Tag) : String :=
  match t.get "srcset" with
  | some s => if s = "" then (t.get "data-srcset").getD "" else s
  | none => (t.get "data-srcset").getD ""

/-- `img.get('src') or img.get('data-src', '')` (line 171). -/
def srcOf (t : Tag) : String :=
  match t.get "src" with
  | some s => if s = "" then (t.get "data-src").getD "" else s
  | none => (t.get "data-src").getD ""

/-- `all_urls` of lines 173–174: the (possibly empty) `src` candidate
followed by the URL token of every non-blank `srcset` entry. -/
def sizesCandidates (t : Tag) : List String :=
  (if srcOf t ≠ "" then [srcOf t] else []) ++
  (splitOnChar ',' (srcsetOf t)).filterMap (fun s =>
    if pyStrip s ≠ "" then (pySplitWs s).head? else none)

/-- The CSS `url(...)` matcher of lines 192/325/334
(`re.findall(r'url\(['"]?([^'"]+)['"]?\)', style)`): scan for `url(`,
optionally skip one quote, and capture the non-empty run up to the closing
quote (quoted case) or parenthesis (bare case).  Fuel-indexed so concrete
runs evaluate by kernel reduction. -/
def findUrlAux : Nat → List Char → List String
  | 0, _ => []
  | _ + 1, [] => []
  | fuel + 1, c :: t =>
    if ("url(".data).isPrefixOf (c :: t) then
      match (c :: t).drop 4 with
      | q :: r =>
        if q = Char.ofNat 39 ∨ q = '"' then
          match splitAtChar q r with
          | some (val, after) =>
            if val ≠ [] then (⟨val⟩ : String) :: findUrlAux fuel after
            else findUrlAux fuel after
          | none => findUrlAux fuel t
        else
          match splitAtChar ')' (q :: r) with
          | some (val, after) =>
            if val ≠ [] then (⟨val⟩ : String) :: findUrlAux fuel after
            else findUrlAux fuel after
          | none => findUrlAux fuel t
      | [] => []
    else findUrlAux fuel t

def findUrlMatches (s : String) : List String := findUrlAux s.data.length s.data

/-- The shared eager-image-fetch pattern of lines 149–158 / 178–187 /
195–204: fetch the raw URL; on HTTP 200 record it in `file_urls` and save
its bytes; otherwise log a warning.  No inter-request delay is applied. -/
def fetchImage (cfg : Cfg) (site : Site) (origin : FetchOrigin)
    (st : CrawlState) (img_url : String) : CrawlState :=
  let st := addEvent st (.fetch origin img_url)
  match site img_url with
  | .transportError => addEvent st (.warnLog img_url)
  | .response status _ body _ =>
    if status = 200 then save_file_st cfg (addFileUrl st img_url) img_url body
    else addEvent st (.warnLog img_url)

/-- `scrape_meta_images` (lines 136–158): re-fetch the page, then eagerly
fetch each `og:image`/`twitter:image` content URL whose **raw** value passes
the scope check. -/
def scrape_meta_images (cfg : Cfg) (site : Site) (st : CrawlState) (url : String) :
    CrawlState :=
  let st := addEvent st (.fetch .metaPage url)
  match site url with
  | .transportError => addEvent st (.errorLog url)
  | .response status _ _ doc =>
    if isHttpError status then addEvent st (.errorLog url)
    else
      (doc.tags.filter (fun t => t.name = "meta" ∧
          (t.get "property" = some "og:image" ∨
           t.get "property" = some "twitter:image"))).foldl
        (fun s meta =>
          match meta.get "content" with
          | some img_url =>
            if img_url ≠ "" ∧ is_same_domain cfg img_url then
              fetchImage cfg site .metaImage s img_url
            else s
          | none => s) st

/-- `scrape_image_sizes` (lines 160–204): re-fetch the page, eagerly fetch
every responsive-image candidate whose **raw** value passes the scope check,
then every inline-style `url(...)` match whose **raw** value passes it. -/
def scrape_image_sizes (cfg : Cfg) (site : Site) (st : CrawlState) (url : String) :
    CrawlState :=
  let st := addEvent st (.fetch .sizesPage url)
  match site url with
  | .transportError => addEvent st (.errorLog url)
  | .response status _ _ doc =>
    if isHttpError status then addEvent st (.errorLog url)
    else
      let st := (doc.tags.filter (fun t => t.name = "img" ∨ t.name = "source")).foldl
        (fun s t => (sizesCandidates t).foldl
          (fun s2 img_url =>
            if img_url ≠ "" ∧ is_same_domain cfg img_url then
              fetchImage cfg site .sizesImage s2 img_url
            else s2) s) st
      (doc.tags.filter (fun t => t.get "style" ≠ none)).foldl
        (fun s t => (findUrlMatches ((t.get "style").getD "")).foldl
          (fun s2 img_url =>
            if is_same_domain cfg img_url then
              fetchImage cfg site .bgImage s2 img_url
            else s2) s) st

/-- `scrape_iframe_content` (lines 206–249): fetch and save the frame
document, then recursively scrape its same-origin scripts, stylesheets,
images and resource-literal matches (each resolved against the frame URL).
Missing `href`/`src` on the filtered tags are treated as empty strings. -/
def scrape_iframe_content (cfg : Cfg) (site : Site)
    (recurse : CrawlState → String → CrawlState)
    (st : CrawlState) (iframe_src : String) : CrawlState :=
  if ¬ is_same_domain cfg iframe_src then st
  else
    let st := addEvent st (.fetch .iframeDoc iframe_src)
    match site iframe_src with
    | .transportError => addEvent st (.errorLog iframe_src)
    | .response status _ body doc =>
      if isHttpError status then addEvent st (.errorLog iframe_src)
      else
        let st := save_file_st cfg st iframe_src body
        let st := (doc.tags.filter (fun t => t.name = "script" ∧ t.get "src" ≠ none)).foldl
          (fun s t =>
            let script_src := urljoin iframe_src ((t.get "src").getD "")
            if is_same_domain cfg script_src then recurse s script_src else s) st
        let st := (doc.tags.filter (fun t => t.name = "link" ∧
            t.get "rel" = some "stylesheet")).foldl
          (fun s t =>
            let css_src := urljoin iframe_src ((t.get "href").getD "")
            if is_same_domain cfg css_src then recurse s css_src else s) st
        let st := (doc.tags.filter (fun t => t.name = "img" ∧ t.get "src" ≠ none)).foldl
          (fun s t =>
            let img_src := urljoin iframe_src ((t.get "src").getD "")
            if is_same_domain cfg img_src then recurse s img_src else s) st
        doc.resourceMatches.foldl
          (fun s m =>
            let resource_url := urljoin iframe_src m
            if is_same_domain cfg resource_url then recurse s resource_url else s) st

/-- Is the tag one of the names scanned by the link loop (line 304)? -/
def isLinkTag (t : Tag) : Bool :=
  t.name = "a" ∨ t.name = "link" ∨ t.name = "script" ∨ t.name = "img" ∨ t.name = "source"

/-- The link/script/anchor loop of lines 304–309: for each tag, take the
first truthy of `href`/`src`/`data-src`, resolve it against the page URL,
and recurse into the crawl when the **resolved** URL is in scope. -/
def linkLoopFold (cfg : Cfg) (url : String)
    (recurse : CrawlState → String → CrawlState)
    (tags : List Tag) (st : CrawlState) : CrawlState :=
  tags.foldl
    (fun s t =>
      match attrVal t with
      | some a =>
        let new_url := urljoin url a
        if is_same_domain cfg new_url then recurse s new_url else s
      | none => s) st

/-- Abstract serialisation of a parsed document (the model of `str(soup)`). -/
def renderAttrs : List (String × String) → String
  | [] => ""
  | (k, v) :: r => " " ++ k ++ "=\"" ++ v ++ "\"" ++ renderAttrs r

def renderTag (t : Tag) : String :=
  "<" ++ t.name ++ renderAttrs t.attrs ++ ">" ++ t.text

def serializeDoc (doc : HtmlDoc) : String :=
  String.join (doc.tags.map renderTag)

/-- One step of the iframe loop of lines 312–319: on an `iframe` tag with a
truthy `src` whose resolved URL is in scope, run the frame sub-crawl and
record the tag with its `src` rewritten to target form; every other tag is
recorded unchanged. -/
def iframeStep (cfg : Cfg) (site : Site)
    (recurse : CrawlState → String → CrawlState) (url : String)
    (acc : CrawlState × List Tag) (t : Tag) : CrawlState × List Tag :=
  if t.name = "iframe" then
    match t.get "src" with
    | some src =>
      if src ≠ "" then
        if is_same_domain cfg (urljoin url src) then
          (scrape_iframe_content cfg site recurse acc.1 (urljoin url src),
           acc.2 ++ [t.setAttr "src" (update_url cfg (urljoin url src))])
        else (acc.1, acc.2 ++ [t])
      else (acc.1, acc.2 ++ [t])
    | none => (acc.1, acc.2 ++ [t])
  else (acc.1, acc.2 ++ [t])

/-- `process_html` (lines 300–342): save the raw document; enqueue resolved
in-scope link-loop references; sub-crawl in-scope iframes while rewriting
their `src` to target form; scrape inline-CSS image references (resolved);
finally save the re-serialised document again. -/
def process_html (cfg : Cfg) (site : Site)
    (recurse : CrawlState → String → CrawlState)
    (st : CrawlState) (url : String) (html_content : String) (doc : HtmlDoc) :
    CrawlState :=
  let st := save_file_st cfg st url html_content
  let st := linkLoopFold cfg url recurse (doc.tags.filter isLinkTag) st
  let acc := doc.tags.foldl (iframeStep cfg site recurse url) (st, [])
  let st := acc.1
  let st := (doc.tags.filter (fun t => t.name = "style")).foldl
    (fun s t => (findUrlMatches t.text).foldl
      (fun s2 img_url =>
        let full_url := urljoin url img_url
        if is_same_domain cfg full_url then recurse s2 full_url else s2) s) st
  let st := (doc.tags.filter (fun t => t.get "style" ≠ none)).foldl
    (fun s t => (findUrlMatches ((t.get "style").getD "")).foldl
      (fun s2 img_url =>
        let full_url := urljoin url img_url
        if is_same_domain cfg full_url then recurse s2 full_url else s2) s) st
  save_file_st cfg st url (serializeDoc ⟨acc.2, doc.resourceMatches⟩)

/-- The `try` body of `scrape_url` after the fetch (lines 111–127): classify
by status and content type and dispatch.  Split out so the claims can reason
about the error and success branches separately. -/
def crawlBody (cfg : Cfg) (site : Site) (recurse : CrawlState → String → CrawlState)
    (url : String) (st : CrawlState) : CrawlState :=
  match site url with
  | .transportError => addEvent st (.errorLog url)
  | .response status ct body doc =>
    if isHttpError status then addEvent st (.errorLog url)
    else
      let content_type := asciiLower ct
      if containsSub content_type "text/html" then
        scrape_meta_images cfg site
          (scrape_image_sizes cfg site
            (process_html cfg site recurse st url body doc) url) url
      else if containsSub content_type "image" then
        save_file_st cfg (addFileUrl st url) url body
      else if containsSub content_type "text/css" ∨
          containsSub content_type "javascript" ∨
          containsSub content_type "application" then
        save_file_st cfg (addFileUrl st url) url body
      else
        save_file_st cfg st url body

/-- `scrape_url` (lines 105–134), fuel-indexed to bound the recursion through
`process_html`/`scrape_iframe_content` (exhausted fuel returns the state
unchanged; every claim below is fuel-generic or supplies ample fuel): skip
if visited, otherwise mark visited, fetch, dispatch on the reply, and apply
the fixed inter-request delay. -/
def scrape_url (cfg : Cfg) (site : Site) : Nat → CrawlState → String → CrawlState
  | 0, st, _ => st
  | fuel + 1, st, url =>
    if url ∈ st.visited then st
    else
      addEvent
        (crawlBody cfg site (scrape_url cfg site fuel) url
          (addEvent { st with visited := st.visited ++ [url] } (.fetch .main url)))
        .sleepEv

/-- The fixed auxiliary file list of `scrape_root_files` (lines 92–100). -/
def rootFiles : List String :=
  ["favicon.ico", "robots.txt", "sitemap.xml", "sitemap-authors.xml",
   "sitemap-pages.xml", "sitemap-posts.xml", "sitemap-tags.xml"]

def scrape_root_files (cfg : Cfg) (site : Site) (fuel : Nat) (st : CrawlState) :
    CrawlState :=
  rootFiles.foldl (fun s f => scrape_url cfg site fuel s (urljoin cfg.source_url f)) st

/-- `scrape_site` (lines 87–89): crawl the seed, then the root files. -/
def scrape_site (cfg : Cfg) (site : Site) (fuel : Nat) : CrawlState :=
  scrape_root_files cfg site fuel (scrape_url cfg site fuel initState cfg.source_url)

/-! ## Observations over the event trace -/

def countFetchesOf (evs : List Event) (url : String) : Nat :=
  (evs.filter (fun e => match e with | .fetch _ u => u = url | _ => false)).length

def fetchCount (evs : List Event) : Nat :=
  (evs.filter (fun e => match e with | .fetch _ _ => true | _ => false)).length

def sleepCount (evs : List Event) : Nat :=
  (evs.filter (fun e => match e with | .sleepEv => true | _ => false)).length

def errorLogCount (evs : List Event) : Nat :=
  (evs.filter (fun e => match e with | .errorLog _ => true | _ => false)).length

def saveCount (evs : List Event) : Nat :=
  (evs.filter (fun e => match e with | .saveEv _ => true | _ => false)).length

/-- The URLs fetched by `scrape_url` itself (line 111), in order. -/
def mainFetchUrls (evs : List Event) : List String :=
  evs.filterMap (fun e => match e with | .fetch .main u => some u | _ => none)

/-- The URLs of the eager responsive/background image fetches
(lines 179 and 196), in order. -/
def imageFetchUrls (evs : List Event) : List String :=
  evs.filterMap (fun e => match e with
    | .fetch .sizesImage u => some u
    | .fetch .bgImage u => some u
    | _ => none)

/-- The URLs of the eager metadata-image fetches (line 150), in order. -/
def metaImageFetchUrls (evs : List Event) : List String :=
  evs.filterMap (fun e => match e with | .fetch .metaImage u => some u | _ => none)

/-- Is the trace rate-limited: no fetch event follows another fetch event
without an intervening sleep? -/
def rateLimitedB (evs : List Event) : Bool :=
  (evs.foldl
    (fun (acc : Bool × Bool) e =>
      match e with
      | .fetch _ _ => (acc.1 && !acc.2, true)
      | .sleepEv => (acc.1, false)
      | _ => acc) (true, false)).1

/-! ## Concrete runs used by the counterexamples -/

def emptyDoc : HtmlDoc := ⟨[], []⟩

/-- A site whose only resource is a contentless HTML page at the seed URL. -/
def c1Site : Site := fun url =>
  if url = "http://helium:2368" then .response 200 "text/html" "<html>" emptyDoc
  else .transportError

def c1Run : CrawlState := scrape_url defaultCfg c1Site 2 initState "http://helium:2368"

/-- C1 counterexample: even on an empty seed page, `scrape_url` fetches the
page, then `scrape_image_sizes` and `scrape_meta_images` each fetch it
again — three Fetcher invocations for one URL in one run, while the
visited set holds a single entry, so the claimed "at most one fetch per URL"
and "visited-set cardinality equals number of Fetcher invocations" both
fail. -/
theorem C1_counterexample :
    countFetchesOf c1Run.events "http://helium:2368" = 3 ∧
    c1Run.visited.length = 1 ∧
    fetchCount c1Run.events ≠ c1Run.visited.length := by
  refine ⟨by decide, by decide, by decide⟩

/-- A page whose only reference is a root-relative `srcset` candidate (the
`img` has an empty `src`, so the link loop of `process_html` skips it). -/
def c2Doc : HtmlDoc := ⟨[⟨"img", [("src", ""), ("srcset", "/a-400.jpg 400w")], ""⟩], []⟩

def c2Site : Site := fun url =>
  if url = "http://helium:2368/page.html" then .response 200 "text/html" "<page>" c2Doc
  else .transportError

def c2Run : CrawlState :=
  scrape_url defaultCfg c2Site 3 initState "http://helium:2368/page.html"

/-- C2 counterexample: the srcset candidate `/a-400.jpg` resolves to an
in-scope absolute URL, yet the run fetches neither the resolved URL nor the
raw value: `scrape_image_sizes` scope-checks the raw relative reference
(whose authority is empty) without resolving it first, so the in-scope image
is silently skipped — refuting "resolved first, then checked, and every
in-scope resolved reference fetched or enqueued". -/
theorem C2_counterexample :
    urljoin "http://helium:2368/page.html" "/a-400.jpg" = "http://helium:2368/a-400.jpg" ∧
    is_same_domain defaultCfg "http://helium:2368/a-400.jpg" = true ∧
    countFetchesOf c2Run.events "http://helium:2368/a-400.jpg" = 0 ∧
    countFetchesOf c2Run.events "/a-400.jpg" = 0 := by
  refine ⟨by decide, by decide, by decide, by decide⟩

/-- A site answering HTTP 304 (non-2xx, but below the 400–599 range that
`raise_for_status` turns into an exception) with a plain-text body. -/
def c6Site : Site := fun url =>
  if url = "http://helium:2368/missing.html" then
    .response 304 "text/plain" "stale" emptyDoc
  else .transportError

def c6Run : CrawlState :=
  scrape_url defaultCfg c6Site 2 initState "http://helium:2368/missing.html"

/-- C6 counterexample: a non-2xx status outside 400–599 (here 304) is not
an error for `raise_for_status`, so the crawl step logs no error and saves
the body instead of returning — refuting "for every non-2xx HTTP status the
step logs the error and returns". -/
theorem C6_counterexample :
    errorLogCount c6Run.events = 0 ∧
    c6Run.files = [("/home/ghost-static-site-gen/public/missing.html", "stale")] := by
  refine ⟨by decide, by decide⟩

def c8Run : CrawlState := scrape_url defaultCfg c1Site 3 initState "http://helium:2368"

/-- C8 counterexample: the run performs three fetches but sleeps only once,
and two fetches occur back-to-back with no delay between them — refuting
"every network fetch is followed by the fixed inter-request delay". -/
theorem C8_counterexample :
    rateLimitedB c8Run.events = false ∧
    fetchCount c8Run.events = 3 ∧
    sleepCount c8Run.events = 1 := by
  refine ⟨by decide, by decide, by decide⟩

/-! ## Crawl invariants

`StInv` ties the visited set to the trace of `scrape_url`-level fetches:
the visited list *is* the list of URLs dispatched at line 111, in order.
`Step` records that a state transformer only ever extends the visited list
and the event trace.  `GoodT` packages both for a transformer, and the
recursion through `process_html`/`scrape_iframe_content` is handled by
parametrising every helper lemma over a well-behaved `recurse`. -/

def StInv (st : CrawlState) : Prop :=
  st.visited = mainFetchUrls st.events ∧ st.visited.Nodup

def Step (st st' : CrawlState) : Prop :=
  st.visited <+: st'.visited ∧ st.events <+: st'.events

theorem stepRefl (st : CrawlState) : Step st st :=
  ⟨List.prefix_refl _, List.prefix_refl _⟩

theorem stepTrans {a b c : CrawlState} (h1 : Step a b) (h2 : Step b c) : Step a c :=
  ⟨h1.1.trans h2.1, h1.2.trans h2.2⟩

def GoodT (f : CrawlState → CrawlState) : Prop :=
  ∀ st, (StInv st → StInv (f st)) ∧ Step st (f st)

theorem goodT_id : GoodT (fun st => st) := fun st => ⟨id, stepRefl st⟩

theorem goodT_comp {f g : CrawlState → CrawlState} (hf : GoodT f) (hg : GoodT g) :
    GoodT (fun st => g (f st)) := fun st =>
  ⟨fun h => (hg (f st)).1 ((hf st).1 h), stepTrans (hf st).2 (hg (f st)).2⟩

theorem goodT_of_eq {f g : CrawlState → CrawlState} (h : ∀ st, f st = g st)
    (hg : GoodT g) : GoodT f := fun st => h st ▸ hg st

theorem mainFetchUrls_append (a b : List Event) :
    mainFetchUrls (a ++ b) = mainFetchUrls a ++ mainFetchUrls b := by
  simp [mainFetchUrls]

theorem goodT_addEvent (e : Event) (he : mainFetchUrls [e] = []) :
    GoodT (fun st => addEvent st e) := by
  intro st
  refine ⟨fun h => ⟨?_, h.2⟩, List.prefix_refl _, List.prefix_append _ _⟩
  simp only [addEvent, mainFetchUrls_append, he, List.append_nil]
  exact h.1

theorem goodT_save (cfg : Cfg) (url content : String) :
    GoodT (fun st => save_file_st cfg st url content) := by
  intro st
  refine ⟨fun h => ⟨?_, h.2⟩, List.prefix_refl _, List.prefix_append _ _⟩
  simp only [save_file_st, mainFetchUrls_append]
  rw [show mainFetchUrls [Event.saveEv (savePathFor cfg url)] = [] from rfl,
      List.append_nil]
  exact h.1

theorem goodT_addFileUrl (url : String) : GoodT (fun st => addFileUrl st url) := by
  intro st
  unfold addFileUrl
  by_cases h : url ∈ st.fileUrls
  · simp only [h, if_pos h]
    exact ⟨id, stepRefl st⟩
  · simp only [h, if_neg h]
    exact ⟨fun hi => hi, List.prefix_refl _, List.prefix_refl _⟩

theorem goodT_ite (C : Prop) [Decidable C] {f g : CrawlState → CrawlState}
    (hf : GoodT f) (hg : GoodT g) : GoodT (fun st => if C then f st else g st) := by
  by_cases hC : C
  · exact goodT_of_eq (fun st => by rw [if_pos hC]) hf
  · exact goodT_of_eq (fun st => by rw [if_neg hC]) hg

theorem goodT_fetchImage (cfg : Cfg) (site : Site) (origin : FetchOrigin)
    (img_url : String) (ho : origin ≠ .main) :
    GoodT (fun st => fetchImage cfg site origin st img_url) := by
  have he : mainFetchUrls [Event.fetch origin img_url] = [] := by
    cases origin <;> first | exact absurd rfl ho | rfl
  cases hs : site img_url with
  | transportError =>
    exact goodT_of_eq (fun st => by unfold fetchImage; rw [hs])
      (goodT_comp (goodT_addEvent (.fetch origin img_url) he)
        (goodT_addEvent (.warnLog img_url) rfl))
  | response status ct body doc =>
    by_cases h200 : status = 200
    · refine goodT_of_eq (fun st => ?_)
        (goodT_comp (goodT_addEvent (.fetch origin img_url) he)
          (goodT_comp (goodT_addFileUrl img_url) (goodT_save cfg img_url body)))
      unfold fetchImage
      rw [hs]
      dsimp only
      rw [if_pos h200]
    · refine goodT_of_eq (fun st => ?_)
        (goodT_comp (goodT_addEvent (.fetch origin img_url) he)
          (goodT_addEvent (.warnLog img_url) rfl))
      unfold fetchImage
      rw [hs]
      dsimp only
      rw [if_neg h200]

theorem goodT_foldl {α : Type} (f : CrawlState → α → CrawlState) (L : List α)
    (h : ∀ x ∈ L, GoodT (fun st => f st x)) :
    GoodT (fun st => L.foldl f st) := by
  induction L with
  | nil => exact goodT_id
  | cons x r ih =>
    refine goodT_of_eq (fun st => by rw [List.foldl_cons])
      (goodT_comp (h x (List.mem_cons_self x r)) (ih ?_))
    intro y hy
    exact h y (List.mem_cons_of_mem x hy)

theorem goodT_scrape_meta_images (cfg : Cfg) (site : Site) (url : String) :
    GoodT (fun st => scrape_meta_images cfg site st url) := by
  cases hs : site url with
  | transportError =>
    exact goodT_of_eq (fun st => by unfold scrape_meta_images; rw [hs])
      (goodT_comp (goodT_addEvent (.fetch .metaPage url) rfl)
        (goodT_addEvent (.errorLog url) rfl))
  | response status ct body doc =>
    by_cases herr : isHttpError status = true
    · refine goodT_of_eq (fun st => ?_)
        (goodT_comp (goodT_addEvent (.fetch .metaPage url) rfl)
          (goodT_addEvent (.errorLog url) rfl))
      unfold scrape_meta_images
      rw [hs]
      dsimp only
      rw [if_pos herr]
    · have hstep : ∀ meta : Tag, GoodT (fun s =>
          match meta.get "content" with
          | some img_url =>
            if img_url ≠ "" ∧ is_same_domain cfg img_url then
              fetchImage cfg site .metaImage s img_url
            else s
          | none => s) := by
        intro meta
        cases hc : meta.get "content" with
        | none => exact goodT_of_eq (fun st => rfl) goodT_id
        | some img_url =>
          refine goodT_of_eq (fun st => rfl) ?_
          exact goodT_ite _ (goodT_fetchImage cfg site .metaImage img_url (by simp))
            goodT_id
      refine goodT_of_eq (fun st => ?_)
        (goodT_comp (goodT_addEvent (.fetch .metaPage url) rfl)
          (goodT_foldl _
            (doc.tags.filter (fun t => t.name = "meta" ∧
              (t.get "property" = some "og:image" ∨
               t.get "property" = some "twitter:image")))
            (fun meta _ => hstep meta)))
      unfold scrape_meta_images
      rw [hs]
      dsimp only
      rw [if_neg herr]

theorem goodT_scrape_image_sizes (cfg : Cfg) (site : Site) (url : String) :
    GoodT (fun st => scrape_image_sizes cfg site st url) := by
  cases hs : site url with
  | transportError =>
    exact goodT_of_eq (fun st => by unfold scrape_image_sizes; rw [hs])
      (goodT_comp (goodT_addEvent (.fetch .sizesPage url) rfl)
        (goodT_addEvent (.errorLog url) rfl))
  | response status ct body doc =>
    by_cases herr : isHttpError status = true
    · refine goodT_of_eq (fun st => ?_)
        (goodT_comp (goodT_addEvent (.fetch .sizesPage url) rfl)
          (goodT_addEvent (.errorLog url) rfl))
      unfold scrape_image_sizes
      rw [hs]
      dsimp only
      rw [if_pos herr]
    · have hstep1 : ∀ t : Tag, GoodT (fun s => (sizesCandidates t).foldl
          (fun s2 img_url =>
            if img_url ≠ "" ∧ is_same_domain cfg img_url then
              fetchImage cfg site .sizesImage s2 img_url
            else s2) s) := fun t =>
        goodT_foldl _ (sizesCandidates t) (fun u _ =>
          goodT_ite _ (goodT_fetchImage cfg site .sizesImage u (by simp)) goodT_id)
      have hstep2 : ∀ t : Tag, GoodT (fun s =>
          (findUrlMatches ((t.get "style").getD "")).foldl
            (fun s2 img_url =>
              if is_same_domain cfg img_url then
                fetchImage cfg site .bgImage s2 img_url
              else s2) s) := fun t =>
        goodT_foldl _ (findUrlMatches ((t.get "style").getD "")) (fun u _ =>
          goodT_ite _ (goodT_fetchImage cfg site .bgImage u (by simp)) goodT_id)
      refine goodT_of_eq (fun st => ?_)
        (goodT_comp (goodT_addEvent (.fetch .sizesPage url) rfl)
          (goodT_comp
            (goodT_foldl _
              (doc.tags.filter (fun t => t.name = "img" ∨ t.name = "source"))
              (fun t _ => hstep1 t))
            (goodT_foldl _
              (doc.tags.filter (fun t => t.get "style" ≠ none))
              (fun t _ => hstep2 t))))
      unfold scrape_image_sizes
      rw [hs]
      dsimp only
      rw [if_neg herr]

theorem goodT_scrape_iframe_content (cfg : Cfg) (site : Site)
    (recurse : CrawlState → String → CrawlState)
    (hrec : ∀ u, GoodT (fun st => recurse st u)) (iframe_src : String) :
    GoodT (fun st => scrape_iframe_content cfg site recurse st iframe_src) := by
  by_cases hd : is_same_domain cfg iframe_src = true
  · cases hs : site iframe_src with
    | transportError =>
      refine goodT_of_eq (fun st => ?_)
        (goodT_comp (goodT_addEvent (.fetch .iframeDoc iframe_src) rfl)
          (goodT_addEvent (.errorLog iframe_src) rfl))
      unfold scrape_iframe_content
      rw [if_neg (by simp [hd]), hs]
    | response status ct body doc =>
      by_cases herr : isHttpError status = true
      · refine goodT_of_eq (fun st => ?_)
          (goodT_comp (goodT_addEvent (.fetch .iframeDoc iframe_src) rfl)
            (goodT_addEvent (.errorLog iframe_src) rfl))
        unfold scrape_iframe_content
        rw [if_neg (by simp [hd]), hs]
        dsimp only
        rw [if_pos herr]
      · have hscripts := goodT_foldl
          (fun s (t : Tag) =>
            if is_same_domain cfg (urljoin iframe_src ((t.get "src").getD "")) then
              recurse s (urljoin iframe_src ((t.get "src").getD ""))
            else s)
          (doc.tags.filter (fun t => t.name = "script" ∧ t.get "src" ≠ none))
          (fun t _ => goodT_ite _ (hrec _) goodT_id)
        have hlinks := goodT_foldl
          (fun s (t : Tag) =>
            if is_same_domain cfg (urljoin iframe_src ((t.get "href").getD "")) then
              recurse s (urljoin iframe_src ((t.get "href").getD ""))
            else s)
          (doc.tags.filter (fun t => t.name = "link" ∧ t.get "rel" = some "stylesheet"))
          (fun t _ => goodT_ite _ (hrec _) goodT_id)
        have himgs := goodT_foldl
          (fun s (t : Tag) =>
            if is_same_domain cfg (urljoin iframe_src ((t.get "src").getD "")) then
              recurse s (urljoin iframe_src ((t.get "src").getD ""))
            else s)
          (doc.tags.filter (fun t => t.name = "img" ∧ t.get "src" ≠ none))
          (fun t _ => goodT_ite _ (hrec _) goodT_id)
        have hres := goodT_foldl
          (fun s (m : String) =>
            if is_same_domain cfg (urljoin iframe_src m) then
              recurse s (urljoin iframe_src m)
            else s)
          doc.resourceMatches
          (fun m _ => goodT_ite _ (hrec _) goodT_id)
        refine goodT_of_eq (fun st => ?_)
          (goodT_comp (goodT_addEvent (.fetch .iframeDoc iframe_src) rfl)
            (goodT_comp (goodT_save cfg iframe_src body)
              (goodT_comp hscripts (goodT_comp hlinks (goodT_comp himgs hres)))))
        unfold scrape_iframe_content
        rw [if_neg (by simp [hd]), hs]
        dsimp only
        rw [if_neg herr]
  · refine goodT_of_eq (fun st => ?_) goodT_id
    unfold scrape_iframe_content
    rw [if_pos (by simp [hd])]

/-- The tag transformation the iframe loop applies to the document before
the second save: in-scope iframes get their `src` rewritten to target form. -/
def iframeRewriteTag (cfg : Cfg) (url : String) (t : Tag) : Tag :=
  if t.name = "iframe" then
    match t.get "src" with
    | some src =>
      if src ≠ "" then
        if is_same_domain cfg (urljoin url src) then
          t.setAttr "src" (update_url cfg (urljoin url src))
        else t
      else t
    | none => t
  else t

/-- The tag-list component of the iframe fold does not depend on the crawl
state: it is the input tags mapped through `iframeRewriteTag`. -/
theorem iframeFold_snd (cfg : Cfg) (site : Site)
    (recurse : CrawlState → String → CrawlState) (url : String) :
    ∀ (tags : List Tag) (st : CrawlState) (ts : List Tag),
      (List.foldl (iframeStep cfg site recurse url) (st, ts) tags).2 =
        ts ++ tags.map (iframeRewriteTag cfg url) := by
  intro tags
  induction tags with
  | nil => intro st ts; simp
  | cons t rest ih =>
    intro st ts
    rw [List.foldl_cons, List.map_cons]
    have hstep : ∀ st' : CrawlState,
        iframeStep cfg site recurse url (st', ts) t =
          ((iframeStep cfg site recurse url (st', ts) t).1,
           ts ++ [iframeRewriteTag cfg url t]) := by
      intro st'
      unfold iframeStep iframeRewriteTag
      by_cases hn : t.name = "iframe"
      · rw [if_pos hn, if_pos hn]
        cases hsrc : t.get "src" with
        | none => rfl
        | some src =>
          dsimp only
          by_cases hne : src ≠ ""
          · rw [if_pos hne, if_pos hne]
            by_cases hd : is_same_domain cfg (urljoin url src) = true
            · rw [if_pos hd, if_pos hd]
            · rw [if_neg hd, if_neg hd]
          · rw [if_neg hne, if_neg hne]
      · rw [if_neg hn, if_neg hn]
    rw [hstep st]
    rw [ih _ (ts ++ [iframeRewriteTag cfg url t])]
    simp

/-- The state component of the iframe fold is a well-behaved transformer. -/
theorem goodT_iframeFold (cfg : Cfg) (site : Site)
    (recurse : CrawlState → String → CrawlState)
    (hrec : ∀ u, GoodT (fun st => recurse st u)) (url : String) :
    ∀ (tags : List Tag) (ts : List Tag),
      GoodT (fun st => (List.foldl (iframeStep cfg site recurse url) (st, ts) tags).1) := by
  intro tags
  induction tags with
  | nil => intro ts; exact goodT_of_eq (fun st => rfl) goodT_id
  | cons t rest ih =>
    intro ts
    by_cases hn : t.name = "iframe"
    · cases hsrc : t.get "src" with
      | none =>
        refine goodT_of_eq (fun st => ?_) (ih (ts ++ [t]))
        rw [List.foldl_cons]
        have : iframeStep cfg site recurse url (st, ts) t = (st, ts ++ [t]) := by
          unfold iframeStep
          rw [if_pos hn, hsrc]
        rw [this]
      | some src =>
        by_cases hne : src ≠ ""
        · by_cases hd : is_same_domain cfg (urljoin url src) = true
          · refine goodT_of_eq (fun st => ?_)
              (goodT_comp
                (goodT_scrape_iframe_content cfg site recurse hrec (urljoin url src))
                (ih (ts ++ [t.setAttr "src" (update_url cfg (urljoin url src))])))
            rw [List.foldl_cons]
            have : iframeStep cfg site recurse url (st, ts) t =
                (scrape_iframe_content cfg site recurse st (urljoin url src),
                 ts ++ [t.setAttr "src" (update_url cfg (urljoin url src))]) := by
              unfold iframeStep
              rw [if_pos hn, hsrc]
              dsimp only
              rw [if_pos hne, if_pos hd]
            rw [this]
          · refine goodT_of_eq (fun st => ?_) (ih (ts ++ [t]))
            rw [List.foldl_cons]
            have : iframeStep cfg site recurse url (st, ts) t = (st, ts ++ [t]) := by
              unfold iframeStep
              rw [if_pos hn, hsrc]
              dsimp only
              rw [if_pos hne, if_neg hd]
            rw [this]
        · refine goodT_of_eq (fun st => ?_) (ih (ts ++ [t]))
          rw [List.foldl_cons]
          have : iframeStep cfg site recurse url (st, ts) t = (st, ts ++ [t]) := by
            unfold iframeStep
            rw [if_pos hn, hsrc]
            dsimp only
            rw [if_neg hne]
          rw [this]
    · refine goodT_of_eq (fun st => ?_) (ih (ts ++ [t]))
      rw [List.foldl_cons]
      have : iframeStep cfg site recurse url (st, ts) t = (st, ts ++ [t]) := by
        unfold iframeStep
        rw [if_neg hn]
      rw [this]

theorem goodT_linkLoopFold (cfg : Cfg) (url : String)
    (recurse : CrawlState → String → CrawlState)
    (hrec : ∀ u, GoodT (fun st => recurse st u)) (tags : List Tag) :
    GoodT (fun st => linkLoopFold cfg url recurse tags st) := by
  unfold linkLoopFold
  refine goodT_foldl _ tags (fun t _ => ?_)
  cases hat : attrVal t with
  | none => exact goodT_of_eq (fun st => rfl) goodT_id
  | some a =>
    refine goodT_of_eq (fun st => rfl) ?_
    exact goodT_ite _ (hrec _) goodT_id

theorem goodT_process_html (cfg : Cfg) (site : Site)
    (recurse : CrawlState → String → CrawlState)
    (hrec : ∀ u, GoodT (fun st => recurse st u))
    (url html_content : String) (doc : HtmlDoc) :
    GoodT (fun st => process_html cfg site recurse st url html_content doc) := by
  have hsty1 : GoodT (fun st => (doc.tags.filter (fun t => t.name = "style")).foldl
      (fun s t => (findUrlMatches t.text).foldl
        (fun s2 img_url =>
          if is_same_domain cfg (urljoin url img_url) then
            recurse s2 (urljoin url img_url)
          else s2) s) st) :=
    goodT_foldl _ _ (fun t _ =>
      goodT_foldl _ (findUrlMatches t.text) (fun u _ => goodT_ite _ (hrec _) goodT_id))
  have hsty2 : GoodT (fun st => (doc.tags.filter (fun t => t.get "style" ≠ none)).foldl
      (fun s t => (findUrlMatches ((t.get "style").getD "")).foldl
        (fun s2 img_url =>
          if is_same_domain cfg (urljoin url img_url) then
            recurse s2 (urljoin url img_url)
          else s2) s) st) :=
    goodT_foldl _ _ (fun t _ =>
      goodT_foldl _ (findUrlMatches ((t.get "style").getD "")) (fun u _ =>
        goodT_ite _ (hrec _) goodT_id))
  refine goodT_of_eq (fun st => ?_)
    (goodT_comp (goodT_save cfg url html_content)
      (goodT_comp (goodT_linkLoopFold cfg url recurse hrec (doc.tags.filter isLinkTag))
        (goodT_comp (goodT_iframeFold cfg site recurse hrec url doc.tags [])
          (goodT_comp hsty1
            (goodT_comp hsty2
              (goodT_save cfg url (serializeDoc
                ⟨doc.tags.map (iframeRewriteTag cfg url), doc.resourceMatches⟩)))))))
  unfold process_html
  dsimp only
  rw [iframeFold_snd cfg site recurse url doc.tags _ []]
  rw [List.nil_append]

theorem goodT_crawlBody (cfg : Cfg) (site : Site)
    (recurse : CrawlState → String → CrawlState)
    (hrec : ∀ u, GoodT (fun st => recurse st u)) (url : String) :
    GoodT (crawlBody cfg site recurse url) := by
  cases hs : site url with
  | transportError =>
    exact goodT_of_eq (fun st => by unfold crawlBody; rw [hs])
      (goodT_addEvent (.errorLog url) rfl)
  | response status ct body doc =>
    by_cases herr : isHttpError status = true
    · refine goodT_of_eq (fun st => ?_) (goodT_addEvent (.errorLog url) rfl)
      unfold crawlBody
      rw [hs]
      dsimp only
      rw [if_pos herr]
    · by_cases hhtml : containsSub (asciiLower ct) "text/html" = true
      · refine goodT_of_eq (fun st => ?_)
          (goodT_comp (goodT_process_html cfg site recurse hrec url body doc)
            (goodT_comp (goodT_scrape_image_sizes cfg site url)
              (goodT_scrape_meta_images cfg site url)))
        unfold crawlBody
        rw [hs]
        dsimp only
        rw [if_neg herr, if_pos hhtml]
      · by_cases himg : containsSub (asciiLower ct) "image" = true
        · refine goodT_of_eq (fun st => ?_)
            (goodT_comp (goodT_addFileUrl url) (goodT_save cfg url body))
          unfold crawlBody
          rw [hs]
          dsimp only
          rw [if_neg herr, if_neg hhtml, if_pos himg]
        · by_cases happ : (containsSub (asciiLower ct) "text/css" = true ∨
              containsSub (asciiLower ct) "javascript" = true ∨
              containsSub (asciiLower ct) "application" = true)
          · refine goodT_of_eq (fun st => ?_)
              (goodT_comp (goodT_addFileUrl url) (goodT_save cfg url body))
            unfold crawlBody
            rw [hs]
            dsimp only
            rw [if_neg herr, if_neg hhtml, if_neg himg, if_pos happ]
          · refine goodT_of_eq (fun st => ?_) (goodT_save cfg url body)
            unfold crawlBody
            rw [hs]
            dsimp only
            rw [if_neg herr, if_neg hhtml, if_neg himg, if_neg happ]

theorem goodT_scrape_url (cfg : Cfg) (site : Site) :
    ∀ (fuel : Nat) (url : String), GoodT (fun st => scrape_url cfg site fuel st url) := by
  intro fuel
  induction fuel with
  | zero => intro url; exact goodT_of_eq (fun st => rfl) goodT_id
  | succ f ih =>
    intro url st
    by_cases hv : url ∈ st.visited
    · have heq : scrape_url cfg site (f + 1) st url = st := by
        simp only [scrape_url, if_pos hv]
      dsimp only
      rw [heq]
      exact ⟨id, stepRefl st⟩
    · have heq : scrape_url cfg site (f + 1) st url =
          addEvent (crawlBody cfg site (scrape_url cfg site f) url
            (addEvent { st with visited := st.visited ++ [url] }
              (.fetch .main url))) .sleepEv := by
        simp only [scrape_url, if_neg hv]
      dsimp only
      rw [heq]
      have h12 : StInv st →
          StInv (addEvent { st with visited := st.visited ++ [url] }
            (.fetch .main url)) := by
        intro h
        constructor
        · show st.visited ++ [url] =
            mainFetchUrls (st.events ++ [Event.fetch FetchOrigin.main url])
          rw [mainFetchUrls_append, ← h.1]
          rfl
        · show (st.visited ++ [url]).Nodup
          simp [List.nodup_append, h.2, hv]
      have hs12 : Step st (addEvent { st with visited := st.visited ++ [url] }
          (.fetch .main url)) :=
        ⟨List.prefix_append _ _, List.prefix_append _ _⟩
      have hbody := goodT_crawlBody cfg site (scrape_url cfg site f)
        (fun u => ih u) url
      have hsleep := goodT_addEvent Event.sleepEv rfl
      constructor
      · intro h
        exact (hsleep _).1 ((hbody _).1 (h12 h))
      · exact stepTrans hs12 (stepTrans (hbody _).2 (hsleep _).2)

theorem goodT_scrape_root_files (cfg : Cfg) (site : Site) (fuel : Nat) :
    GoodT (fun st => scrape_root_files cfg site fuel st) := by
  unfold scrape_root_files
  exact goodT_foldl _ rootFiles
    (fun f _ => goodT_scrape_url cfg site fuel (urljoin cfg.source_url f))

/-- C1 amended: within one run, no URL is **dispatched** through
`scrape_url`'s own fetch more than once — the trace of line-111 fetches has
no duplicate URLs, and the visited-set cardinality equals the number of
those dispatches.  (The eager image/meta/iframe fetches bypass the visited
set, so the total fetch count can exceed this; see the counterexample.) -/
theorem C1_amended_dispatch_at_most_once (cfg : Cfg) (site : Site) (fuel : Nat) :
    (mainFetchUrls (scrape_site cfg site fuel).events).Nodup ∧
    (scrape_site cfg site fuel).visited.length =
      (mainFetchUrls (scrape_site cfg site fuel).events).length ∧
    (∀ u, (mainFetchUrls (scrape_site cfg site fuel).events).count u ≤ 1) := by
  have hinv : StInv (scrape_site cfg site fuel) := by
    unfold scrape_site
    refine ((goodT_scrape_root_files cfg site fuel) _).1 ?_
    exact ((goodT_scrape_url cfg site fuel cfg.source_url) initState).1
      ⟨rfl, List.nodup_nil⟩
  obtain ⟨hv, hnd⟩ := hinv
  rw [← hv]
  exact ⟨hnd, rfl, fun u => List.nodup_iff_count_le_one.mp hnd u⟩

/-! ## Event-trace equations for the eager image fetchers -/

theorem addFileUrl_events (st : CrawlState) (u : String) :
    (addFileUrl st u).events = st.events := by
  unfold addFileUrl
  split <;> rfl

/-- The events one eager image fetch appends. -/
def fetchImageTrace (cfg : Cfg) (site : Site) (origin : FetchOrigin)
    (img_url : String) : List Event :=
  Event.fetch origin img_url ::
    (match site img_url with
     | .transportError => [.warnLog img_url]
     | .response status _ _ _ =>
       if status = 200 then [.saveEv (savePathFor cfg img_url)]
       else [.warnLog img_url])

theorem fetchImage_events (cfg : Cfg) (site : Site) (origin : FetchOrigin)
    (st : CrawlState) (img_url : String) :
    (fetchImage cfg site origin st img_url).events =
      st.events ++ fetchImageTrace cfg site origin img_url := by
  unfold fetchImage fetchImageTrace
  cases hs : site img_url with
  | transportError => simp [addEvent]
  | response status ct body doc =>
    dsimp only
    by_cases h200 : status = 200
    · rw [if_pos h200, if_pos h200]
      show (save_file_st cfg (addFileUrl (addEvent st _) img_url) img_url body).events = _
      unfold save_file_st
      rw [addFileUrl_events]
      simp [addEvent]
    · rw [if_neg h200, if_neg h200]
      simp [addEvent]

/-- The events appended by a fold of condition-gated eager fetches. -/
theorem foldl_gated_fetch_events (cfg : Cfg) (site : Site) (origin : FetchOrigin)
    (C : String → Prop) [DecidablePred C] :
    ∀ (L : List String) (st : CrawlState),
      ((L.foldl (fun s u => if C u then fetchImage cfg site origin s u else s) st).events) =
        st.events ++
          ((L.filter (fun u => decide (C u))).map (fetchImageTrace cfg site origin)).flatten := by
  intro L
  induction L with
  | nil => intro st; simp
  | cons u r ih =>
    intro st
    rw [List.foldl_cons, List.filter_cons]
    by_cases hc : C u
    · rw [if_pos hc, if_pos (decide_eq_true hc), List.map_cons, List.flatten_cons]
      rw [ih, fetchImage_events, List.append_assoc]
    · rw [if_neg hc, if_neg (fun h => hc (of_decide_eq_true h))]
      rw [ih]

/-- The full event trace of one `scrape_image_sizes` call. -/
def sizesTrace (cfg : Cfg) (site : Site) (url : String) : List Event :=
  Event.fetch .sizesPage url ::
    (match site url with
     | .transportError => [.errorLog url]
     | .response status _ _ doc =>
       if isHttpError status then [.errorLog url]
       else
         ((doc.tags.filter (fun t => t.name = "img" ∨ t.name = "source")).map (fun t =>
            (((sizesCandidates t).filter
                (fun u => decide (u ≠ "" ∧ is_same_domain cfg u = true))).map
              (fetchImageTrace cfg site .sizesImage)).flatten)).flatten ++
         ((doc.tags.filter (fun t => t.get "style" ≠ none)).map (fun t =>
            (((findUrlMatches ((t.get "style").getD "")).filter
                (fun u => is_same_domain cfg u)).map
              (fetchImageTrace cfg site .bgImage)).flatten)).flatten)

theorem scrape_image_sizes_events (cfg : Cfg) (site : Site) (st : CrawlState)
    (url : String) :
    (scrape_image_sizes cfg site st url).events = st.events ++ sizesTrace cfg site url := by
  unfold scrape_image_sizes sizesTrace
  cases hs : site url with
  | transportError => simp [addEvent]
  | response status ct body doc =>
    dsimp only
    by_cases herr : isHttpError status = true
    · rw [if_pos herr, if_pos herr]
      simp [addEvent]
    · rw [if_neg herr, if_neg herr]
      have houter : ∀ (tags : List Tag) (st0 : CrawlState),
          ((tags.foldl (fun s t => (sizesCandidates t).foldl
              (fun s2 img_url =>
                if img_url ≠ "" ∧ is_same_domain cfg img_url then
                  fetchImage cfg site .sizesImage s2 img_url
                else s2) s) st0).events) =
            st0.events ++ (tags.map (fun t =>
              (((sizesCandidates t).filter
                  (fun u => decide (u ≠ "" ∧ is_same_domain cfg u = true))).map
                (fetchImageTrace cfg site .sizesImage)).flatten)).flatten := by
        intro tags
        induction tags with
        | nil => intro st0; simp
        | cons t r ih =>
          intro st0
          rw [List.foldl_cons, List.map_cons, List.flatten_cons, ih,
            foldl_gated_fetch_events cfg site .sizesImage
              (fun u => u ≠ "" ∧ is_same_domain cfg u = true) (sizesCandidates t) st0,
            List.append_assoc]
      have houter2 : ∀ (tags : List Tag) (st0 : CrawlState),
          ((tags.foldl (fun s t => (findUrlMatches ((t.get "style").getD "")).foldl
              (fun s2 img_url =>
                if is_same_domain cfg img_url then
                  fetchImage cfg site .bgImage s2 img_url
                else s2) s) st0).events) =
            st0.events ++ (tags.map (fun t =>
              (((findUrlMatches ((t.get "style").getD "")).filter
                  (fun u => is_same_domain cfg u)).map
                (fetchImageTrace cfg site .bgImage)).flatten)).flatten := by
        intro tags
        induction tags with
        | nil => intro st0; simp
        | cons t r ih =>
          intro st0
          rw [List.foldl_cons, List.map_cons, List.flatten_cons, ih]
          have := foldl_gated_fetch_events cfg site .bgImage
            (fun u => is_same_domain cfg u = true)
            (findUrlMatches ((t.get "style").getD "")) st0
          simp only [decide_eq_true_eq] at this ⊢
          rw [show (fun u => decide (is_same_domain cfg u = true)) =
              (fun u => is_same_domain cfg u) from funext (fun u => by simp)] at this
          rw [this, List.append_assoc]
      rw [houter2, houter]
      simp [addEvent]

/-- The full event trace of one `scrape_meta_images` call. -/
def metaTrace (cfg : Cfg) (site : Site) (url : String) : List Event :=
  Event.fetch .metaPage url ::
    (match site url with
     | .transportError => [.errorLog url]
     | .response status _ _ doc =>
       if isHttpError status then [.errorLog url]
       else
         ((((doc.tags.filter (fun t => t.name = "meta" ∧
               (t.get "property" = some "og:image" ∨
                t.get "property" = some "twitter:image"))).filterMap
             (fun t => t.get "content")).filter
             (fun u => decide (u ≠ "" ∧ is_same_domain cfg u = true))).map
           (fetchImageTrace cfg site .metaImage)).flatten)

theorem scrape_meta_images_events (cfg : Cfg) (site : Site) (st : CrawlState)
    (url : String) :
    (scrape_meta_images cfg site st url).events = st.events ++ metaTrace cfg site url := by
  unfold scrape_meta_images metaTrace
  cases hs : site url with
  | transportError => simp [addEvent]
  | response status ct body doc =>
    dsimp only
    by_cases herr : isHttpError status = true
    · rw [if_pos herr, if_pos herr]
      simp [addEvent]
    · rw [if_neg herr, if_neg herr]
      have hfold : ∀ (metas : List Tag) (st0 : CrawlState),
          ((metas.foldl (fun s meta =>
              match meta.get "content" with
              | some img_url =>
                if img_url ≠ "" ∧ is_same_domain cfg img_url then
                  fetchImage cfg site .metaImage s img_url
                else s
              | none => s) st0).events) =
            st0.events ++
              (((metas.filterMap (fun t => t.get "content")).filter
                  (fun u => decide (u ≠ "" ∧ is_same_domain cfg u = true))).map
                (fetchImageTrace cfg site .metaImage)).flatten := by
        intro metas
        induction metas with
        | nil => intro st0; simp
        | cons meta r ih =>
          intro st0
          rw [List.foldl_cons, List.filterMap_cons]
          cases hc : meta.get "content" with
          | none => rw [ih]
          | some img_url =>
            dsimp only
            rw [List.filter_cons]
            by_cases hcnd : img_url ≠ "" ∧ is_same_domain cfg img_url = true
            · rw [if_pos hcnd, if_pos (decide_eq_true hcnd), List.map_cons,
                List.flatten_cons]
              rw [ih, fetchImage_events, List.append_assoc]
            · rw [if_neg hcnd, if_neg (fun h => hcnd (of_decide_eq_true h))]
              rw [ih]
      rw [hfold]
      simp [addEvent]

/-! ## Claims C8 and C6: the inter-request delay and error isolation -/

theorem sleepCount_append (a b : List Event) :
    sleepCount (a ++ b) = sleepCount a + sleepCount b := by
  simp [sleepCount]

theorem sleepCount_fetchImageTrace (cfg : Cfg) (site : Site) (origin : FetchOrigin)
    (u : String) : sleepCount (fetchImageTrace cfg site origin u) = 0 := by
  unfold fetchImageTrace
  cases site u with
  | transportError => rfl
  | response status ct body doc =>
    dsimp only
    by_cases h : status = 200
    · rw [if_pos h]; rfl
    · rw [if_neg h]; rfl

theorem sleepCount_flatten {α : Type} (g : α → List Event)
    (h : ∀ x, sleepCount (g x) = 0) :
    ∀ L : List α, sleepCount ((L.map g).flatten) = 0 := by
  intro L
  induction L with
  | nil => rfl
  | cons x r ih =>
    rw [List.map_cons, List.flatten_cons, sleepCount_append, h, ih]

theorem sleepCount_sizesTrace (cfg : Cfg) (site : Site) (url : String) :
    sleepCount (sizesTrace cfg site url) = 0 := by
  unfold sizesTrace
  cases site url with
  | transportError => rfl
  | response status ct body doc =>
    dsimp only
    by_cases herr : isHttpError status = true
    · rw [if_pos herr]; rfl
    · rw [if_neg herr]
      show sleepCount (Event.fetch .sizesPage url :: _) = 0
      have hcons : ∀ l : List Event,
          sleepCount (Event.fetch .sizesPage url :: l) = sleepCount l := fun l => rfl
      rw [hcons, sleepCount_append,
        sleepCount_flatten _ (fun t => sleepCount_flatten _
          (fun u => sleepCount_fetchImageTrace cfg site .sizesImage u) _),
        sleepCount_flatten _ (fun t => sleepCount_flatten _
          (fun u => sleepCount_fetchImageTrace cfg site .bgImage u) _)]

theorem sleepCount_metaTrace (cfg : Cfg) (site : Site) (url : String) :
    sleepCount (metaTrace cfg site url) = 0 := by
  unfold metaTrace
  cases site url with
  | transportError => rfl
  | response status ct body doc =>
    dsimp only
    by_cases herr : isHttpError status = true
    · rw [if_pos herr]; rfl
    · rw [if_neg herr]
      show sleepCount (Event.fetch .metaPage url :: _) = 0
      have hcons : ∀ l : List Event,
          sleepCount (Event.fetch .metaPage url :: l) = sleepCount l := fun l => rfl
      rw [hcons,
        sleepCount_flatten _ (fun u => sleepCount_fetchImageTrace cfg site .metaImage u)]

/-- C8 amended: only the fetch performed by `scrape_url` itself is followed
by the fixed inter-request delay — a dispatching `scrape_url` call ends its
trace with the sleep event — while the eager side-effect fetches inside
`scrape_image_sizes` and `scrape_meta_images` are never followed by any
delay (those functions emit no sleep events at all). -/
theorem C8_amended_delay_only_for_dispatch (cfg : Cfg) (site : Site) (fuel : Nat)
    (st : CrawlState) (url : String) (hnv : url ∉ st.visited) :
    (∃ Δ, (scrape_url cfg site (fuel + 1) st url).events =
        st.events ++ Δ ++ [Event.sleepEv]) ∧
    (∀ (st2 : CrawlState) (u2 : String),
      sleepCount ((scrape_image_sizes cfg site st2 u2).events) = sleepCount st2.events) ∧
    (∀ (st2 : CrawlState) (u2 : String),
      sleepCount ((scrape_meta_images cfg site st2 u2).events) = sleepCount st2.events) := by
  refine ⟨?_, ?_, ?_⟩
  · have heq : scrape_url cfg site (fuel + 1) st url =
        addEvent (crawlBody cfg site (scrape_url cfg site fuel) url
          (addEvent { st with visited := st.visited ++ [url] }
            (.fetch .main url))) .sleepEv := by
      simp only [scrape_url, if_neg hnv]
    rw [heq]
    obtain ⟨Δ2, hΔ2⟩ := (goodT_crawlBody cfg site (scrape_url cfg site fuel)
      (fun u => goodT_scrape_url cfg site fuel u) url
      (addEvent { st with visited := st.visited ++ [url] } (.fetch .main url))).2.2
    refine ⟨Event.fetch .main url :: Δ2, ?_⟩
    show (crawlBody cfg site (scrape_url cfg site fuel) url
        (addEvent { st with visited := st.visited ++ [url] }
          (.fetch .main url))).events ++ [Event.sleepEv] =
      st.events ++ (Event.fetch .main url :: Δ2) ++ [Event.sleepEv]
    rw [← hΔ2]
    show (st.events ++ [Event.fetch .main url]) ++ Δ2 ++ [Event.sleepEv] = _
    simp [List.append_assoc]
  · intro st2 u2
    rw [scrape_image_sizes_events, sleepCount_append, sleepCount_sizesTrace]
    omega
  · intro st2 u2
    rw [scrape_meta_images_events, sleepCount_append, sleepCount_metaTrace]
    omega

/-- Witness for `C8_amended_delay_only_for_dispatch`: the concrete seed
crawl of `c1Site`. -/
theorem C8_amended_delay_only_for_dispatch_witness :
    (∃ Δ, (scrape_url defaultCfg c1Site (1 + 1) initState "http://helium:2368").events =
        initState.events ++ Δ ++ [Event.sleepEv]) ∧
    (∀ (st2 : CrawlState) (u2 : String),
      sleepCount ((scrape_image_sizes defaultCfg c1Site st2 u2).events) =
        sleepCount st2.events) ∧
    (∀ (st2 : CrawlState) (u2 : String),
      sleepCount ((scrape_meta_images defaultCfg c1Site st2 u2).events) =
        sleepCount st2.events) :=
  C8_amended_delay_only_for_dispatch defaultCfg c1Site 1 initState
    "http://helium:2368" (by decide)

theorem visited_mem_scrape_url (cfg : Cfg) (site : Site) (fuel : Nat)
    (st : CrawlState) (u : String) (hf : 0 < fuel) :
    u ∈ (scrape_url cfg site fuel st u).visited := by
  match fuel, hf with
  | f + 1, _ =>
    by_cases hv : u ∈ st.visited
    · have heq : scrape_url cfg site (f + 1) st u = st := by
        simp only [scrape_url, if_pos hv]
      rw [heq]
      exact hv
    · have heq : scrape_url cfg site (f + 1) st u =
          addEvent (crawlBody cfg site (scrape_url cfg site f) u
            (addEvent { st with visited := st.visited ++ [u] }
              (.fetch .main u))) .sleepEv := by
        simp only [scrape_url, if_neg hv]
      rw [heq]
      have h2 : u ∈ (addEvent { st with visited := st.visited ++ [u] }
          (.fetch .main u)).visited := by
        simp [addEvent]
      have hb := (goodT_crawlBody cfg site (scrape_url cfg site f)
        (fun u' => goodT_scrape_url cfg site f u') u
        (addEvent { st with visited := st.visited ++ [u] } (.fetch .main u))).2.1
      exact hb.subset h2

theorem visited_mono_foldl (cfg : Cfg) (site : Site) (fuel : Nat)
    (urls : List String) (st : CrawlState) :
    Step st (urls.foldl (scrape_url cfg site fuel) st) :=
  ((goodT_foldl _ urls (fun u _ => goodT_scrape_url cfg site fuel u)) st).2

theorem mem_visited_foldl (cfg : Cfg) (site : Site) (fuel : Nat) (hf : 0 < fuel) :
    ∀ (urls : List String) (st : CrawlState) (u : String), u ∈ urls →
      u ∈ (urls.foldl (scrape_url cfg site fuel) st).visited := by
  intro urls
  induction urls with
  | nil => intro st u h; simp at h
  | cons v rest ih =>
    intro st u hu
    rw [List.foldl_cons]
    rcases List.mem_cons.mp hu with h | h
    · subst h
      exact (visited_mono_foldl cfg site fuel rest _).1.subset
        (visited_mem_scrape_url cfg site fuel st u hf)
    · exact ih _ u h

/-- C6 amended: for a URL whose fetch ends in a transport failure or an HTTP
status in 400–599 (the statuses `raise_for_status` raises for), the crawl
step marks the URL visited, logs the error, sleeps, and returns with no
other state change; the remaining frontier URLs are still all processed.
(Non-2xx statuses below 400, such as 304, are treated as success and saved —
see the counterexample.) -/
theorem C6_amended_failed_fetch_isolated (cfg : Cfg) (site : Site) (fuel : Nat)
    (st : CrawlState) (url : String) (rest : List String)
    (hnv : url ∉ st.visited)
    (herr : site url = .transportError ∨
      ∃ status ct body doc, site url = .response status ct body doc ∧
        isHttpError status = true) :
    scrape_url cfg site (fuel + 1) st url =
      { st with visited := st.visited ++ [url],
                events := st.events ++
                  [.fetch .main url, .errorLog url, .sleepEv] } ∧
    (∀ u ∈ url :: rest,
      u ∈ ((url :: rest).foldl (scrape_url cfg site (fuel + 1)) st).visited) := by
  constructor
  · have heq : scrape_url cfg site (fuel + 1) st url =
        addEvent (crawlBody cfg site (scrape_url cfg site fuel) url
          (addEvent { st with visited := st.visited ++ [url] }
            (.fetch .main url))) .sleepEv := by
      simp only [scrape_url, if_neg hnv]
    rw [heq]
    have hbody : crawlBody cfg site (scrape_url cfg site fuel) url
        (addEvent { st with visited := st.visited ++ [url] } (.fetch .main url)) =
      addEvent (addEvent { st with visited := st.visited ++ [url] }
        (.fetch .main url)) (.errorLog url) := by
      rcases herr with h | ⟨status, ct, body, doc, h, herrs⟩
      · unfold crawlBody
        rw [h]
      · unfold crawlBody
        rw [h]
        dsimp only
        rw [if_pos herrs]
    rw [hbody]
    simp [addEvent]
  · intro u hu
    exact mem_visited_foldl cfg site (fuel + 1) (Nat.succ_pos fuel) _ st u hu

/-- A network that always fails at the transport level. -/
def alwaysFailSite : Site := fun _ => Reply.transportError

/-- Witness for `C6_amended_failed_fetch_isolated`: a failing fetch logs and
returns, and the next frontier URL is still processed. -/
theorem C6_amended_failed_fetch_isolated_witness :
    scrape_url defaultCfg alwaysFailSite (0 + 1) initState "http://helium:2368/broken" =
      { initState with visited := initState.visited ++ ["http://helium:2368/broken"],
                       events := initState.events ++
                         [.fetch .main "http://helium:2368/broken",
                          .errorLog "http://helium:2368/broken", .sleepEv] } ∧
    (∀ u ∈ "http://helium:2368/broken" :: ["http://helium:2368/next"],
      u ∈ (("http://helium:2368/broken" :: ["http://helium:2368/next"]).foldl
        (scrape_url defaultCfg alwaysFailSite (0 + 1)) initState).visited) :=
  C6_amended_failed_fetch_isolated defaultCfg alwaysFailSite 0 initState
    "http://helium:2368/broken" ["http://helium:2368/next"] (by decide) (Or.inl rfl)

/-! ## Claim C2: resolution versus raw scope-checking of discovered references -/

/-- The targets of the link loop, exhibiting the correct pipeline the claim
describes: extract the raw attribute, **resolve** it against the page URL,
and only then scope-check. -/
def processHtmlLinkTargets (cfg : Cfg) (url : String) (tags : List Tag) : List String :=
  ((tags.filterMap attrVal).map (urljoin url)).filter (fun u => is_same_domain cfg u)

/-- The image URLs `scrape_image_sizes` actually fetches: the **raw**
responsive-image candidates and inline-style `url(...)` matches, filtered by
the scope predicate applied to the raw value — no resolution anywhere. -/
def sizesRawTargets (cfg : Cfg) (doc : HtmlDoc) : List String :=
  ((doc.tags.filter (fun t => t.name = "img" ∨ t.name = "source")).map (fun t =>
     (sizesCandidates t).filter
       (fun u => decide (u ≠ "" ∧ is_same_domain cfg u = true)))).flatten ++
  ((doc.tags.filter (fun t => t.get "style" ≠ none)).map (fun t =>
     (findUrlMatches ((t.get "style").getD "")).filter
       (fun u => is_same_domain cfg u))).flatten

/-- The image URLs `scrape_meta_images` actually fetches: the **raw**
`og:image`/`twitter:image` contents, filtered by the scope predicate applied
to the raw value. -/
def metaRawTargets (cfg : Cfg) (doc : HtmlDoc) : List String :=
  ((doc.tags.filter (fun t => t.name = "meta" ∧
      (t.get "property" = some "og:image" ∨
       t.get "property" = some "twitter:image"))).filterMap
     (fun t => t.get "content")).filter
    (fun u => decide (u ≠ "" ∧ is_same_domain cfg u = true))

theorem imageFetchUrls_append (a b : List Event) :
    imageFetchUrls (a ++ b) = imageFetchUrls a ++ imageFetchUrls b := by
  simp [imageFetchUrls]

theorem metaImageFetchUrls_append (a b : List Event) :
    metaImageFetchUrls (a ++ b) = metaImageFetchUrls a ++ metaImageFetchUrls b := by
  simp [metaImageFetchUrls]

theorem imageFetchUrls_trace_sizes (cfg : Cfg) (site : Site) (u : String) :
    imageFetchUrls (fetchImageTrace cfg site .sizesImage u) = [u] := by
  unfold fetchImageTrace
  cases site u with
  | transportError => rfl
  | response status ct body doc =>
    dsimp only
    by_cases h : status = 200
    · rw [if_pos h]; rfl
    · rw [if_neg h]; rfl

theorem imageFetchUrls_trace_bg (cfg : Cfg) (site : Site) (u : String) :
    imageFetchUrls (fetchImageTrace cfg site .bgImage u) = [u] := by
  unfold fetchImageTrace
  cases site u with
  | transportError => rfl
  | response status ct body doc =>
    dsimp only
    by_cases h : status = 200
    · rw [if_pos h]; rfl
    · rw [if_neg h]; rfl

theorem metaImageFetchUrls_trace_meta (cfg : Cfg) (site : Site) (u : String) :
    metaImageFetchUrls (fetchImageTrace cfg site .metaImage u) = [u] := by
  unfold fetchImageTrace
  cases site u with
  | transportError => rfl
  | response status ct body doc =>
    dsimp only
    by_cases h : status = 200
    · rw [if_pos h]; rfl
    · rw [if_neg h]; rfl

theorem imageFetchUrls_map_flatten (trace : String → List Event)
    (htr : ∀ u, imageFetchUrls (trace u) = [u]) :
    ∀ us : List String, imageFetchUrls ((us.map trace).flatten) = us := by
  intro us
  induction us with
  | nil => rfl
  | cons u r ih =>
    rw [List.map_cons, List.flatten_cons, imageFetchUrls_append, htr, ih]
    rfl

theorem imageFetchUrls_doubleFlatten {α : Type} (trace : String → List Event)
    (htr : ∀ u, imageFetchUrls (trace u) = [u]) (h : α → List String) :
    ∀ L : List α,
      imageFetchUrls ((L.map (fun t => ((h t).map trace).flatten)).flatten) =
        (L.map h).flatten := by
  intro L
  induction L with
  | nil => rfl
  | cons t r ih =>
    rw [List.map_cons, List.flatten_cons, imageFetchUrls_append,
      imageFetchUrls_map_flatten trace htr, List.map_cons, List.flatten_cons, ih]

theorem metaImageFetchUrls_map_flatten (trace : String → List Event)
    (htr : ∀ u, metaImageFetchUrls (trace u) = [u]) :
    ∀ us : List String, metaImageFetchUrls ((us.map trace).flatten) = us := by
  intro us
  induction us with
  | nil => rfl
  | cons u r ih =>
    rw [List.map_cons, List.flatten_cons, metaImageFetchUrls_append, htr, ih]
    rfl

theorem linkLoopFold_eq (cfg : Cfg) (url : String)
    (recurse : CrawlState → String → CrawlState) :
    ∀ (tags : List Tag) (st : CrawlState),
      linkLoopFold cfg url recurse tags st =
        (processHtmlLinkTargets cfg url tags).foldl recurse st := by
  intro tags
  induction tags with
  | nil => intro st; rfl
  | cons t r ih =>
    intro st
    unfold linkLoopFold processHtmlLinkTargets at *
    rw [List.foldl_cons, List.filterMap_cons]
    cases hat : attrVal t with
    | none =>
      dsimp only
      exact ih st
    | some a =>
      dsimp only
      rw [List.map_cons, List.filter_cons]
      by_cases hd : is_same_domain cfg (urljoin url a) = true
      · rw [if_pos hd, if_pos hd, List.foldl_cons]
        exact ih (recurse st (urljoin url a))
      · rw [if_neg hd, if_neg hd]
        exact ih st

/-- A fold of resolve-then-scope-check recursions over raw string references
equals a plain recursion over the resolved, scope-filtered targets.  This
is the shape of the inline-CSS loops of `process_html` and the
resource-literal loop of `scrape_iframe_content`. -/
theorem cssResolveFold_eq (cfg : Cfg) (url : String)
    (recurse : CrawlState → String → CrawlState) :
    ∀ (L : List String) (st : CrawlState),
      L.foldl (fun s2 img_url =>
          let full_url := urljoin url img_url
          if is_same_domain cfg full_url then recurse s2 full_url else s2) st =
        ((L.map (urljoin url)).filter (fun u => is_same_domain cfg u)).foldl recurse st := by
  intro L
  induction L with
  | nil => intro st; rfl
  | cons u r ih =>
    intro st
    rw [List.foldl_cons, List.map_cons, List.filter_cons]
    dsimp only
    by_cases hd : is_same_domain cfg (urljoin url u) = true
    · rw [if_pos hd, if_pos hd, List.foldl_cons]
      exact ih _
    · rw [if_neg hd, if_neg hd]
      exact ih st

/-- Same, over the `src` attributes of a tag list (the script and image
loops of `scrape_iframe_content`). -/
theorem tagResolveFoldSrc_eq (cfg : Cfg) (base : String)
    (recurse : CrawlState → String → CrawlState) :
    ∀ (tags : List Tag) (st : CrawlState),
      tags.foldl (fun s t =>
          let script_src := urljoin base ((t.get "src").getD "")
          if is_same_domain cfg script_src then recurse s script_src else s) st =
        ((tags.map (fun t => urljoin base ((t.get "src").getD ""))).filter
          (fun u => is_same_domain cfg u)).foldl recurse st := by
  intro tags
  induction tags with
  | nil => intro st; rfl
  | cons t r ih =>
    intro st
    rw [List.foldl_cons, List.map_cons, List.filter_cons]
    dsimp only
    by_cases hd : is_same_domain cfg (urljoin base ((t.get "src").getD "")) = true
    · rw [if_pos hd, if_pos hd, List.foldl_cons]
      exact ih _
    · rw [if_neg hd, if_neg hd]
      exact ih st

/-- Same, over the `href` attributes of a tag list (the stylesheet loop of
`scrape_iframe_content`). -/
theorem tagResolveFoldHref_eq (cfg : Cfg) (base : String)
    (recurse : CrawlState → String → CrawlState) :
    ∀ (tags : List Tag) (st : CrawlState),
      tags.foldl (fun s t =>
          let css_src := urljoin base ((t.get "href").getD "")
          if is_same_domain cfg css_src then recurse s css_src else s) st =
        ((tags.map (fun t => urljoin base ((t.get "href").getD ""))).filter
          (fun u => is_same_domain cfg u)).foldl recurse st := by
  intro tags
  induction tags with
  | nil => intro st; rfl
  | cons t r ih =>
    intro st
    rw [List.foldl_cons, List.map_cons, List.filter_cons]
    dsimp only
    by_cases hd : is_same_domain cfg (urljoin base ((t.get "href").getD "")) = true
    · rw [if_pos hd, if_pos hd, List.foldl_cons]
      exact ih _
    · rw [if_neg hd, if_neg hd]
      exact ih st

/-- The resolved, scope-filtered image targets of the `style`-element loop
of `process_html` (lines 322–329). -/
def styleElemTargets (cfg : Cfg) (url : String) (doc : HtmlDoc) : List String :=
  ((doc.tags.filter (fun t => t.name = "style")).map (fun t =>
    ((findUrlMatches t.text).map (urljoin url)).filter
      (fun u => is_same_domain cfg u))).flatten

/-- The resolved, scope-filtered image targets of the `style`-attribute loop
of `process_html` (lines 332–338). -/
def styleAttrTargets (cfg : Cfg) (url : String) (doc : HtmlDoc) : List String :=
  ((doc.tags.filter (fun t => t.get "style" ≠ none)).map (fun t =>
    ((findUrlMatches ((t.get "style").getD "")).map (urljoin url)).filter
      (fun u => is_same_domain cfg u))).flatten

theorem styleElemFold_eq (cfg : Cfg) (url : String)
    (recurse : CrawlState → String → CrawlState) :
    ∀ (tags : List Tag) (st : CrawlState),
      tags.foldl (fun s t => (findUrlMatches t.text).foldl
        (fun s2 img_url =>
          let full_url := urljoin url img_url
          if is_same_domain cfg full_url then recurse s2 full_url else s2) s) st =
      ((tags.map (fun t => ((findUrlMatches t.text).map (urljoin url)).filter
          (fun u => is_same_domain cfg u))).flatten).foldl recurse st := by
  intro tags
  induction tags with
  | nil => intro st; rfl
  | cons t r ih =>
    intro st
    rw [List.foldl_cons, List.map_cons, List.flatten_cons, List.foldl_append]
    rw [cssResolveFold_eq cfg url recurse (findUrlMatches t.text) st]
    exact ih _

theorem styleAttrFold_eq (cfg : Cfg) (url : String)
    (recurse : CrawlState → String → CrawlState) :
    ∀ (tags : List Tag) (st : CrawlState),
      tags.foldl (fun s t => (findUrlMatches ((t.get "style").getD "")).foldl
        (fun s2 img_url =>
          let full_url := urljoin url img_url
          if is_same_domain cfg full_url then recurse s2 full_url else s2) s) st =
      ((tags.map (fun t => ((findUrlMatches ((t.get "style").getD "")).map
          (urljoin url)).filter (fun u => is_same_domain cfg u))).flatten).foldl
        recurse st := by
  intro tags
  induction tags with
  | nil => intro st; rfl
  | cons t r ih =>
    intro st
    rw [List.foldl_cons, List.map_cons, List.flatten_cons, List.foldl_append]
    rw [cssResolveFold_eq cfg url recurse (findUrlMatches ((t.get "style").getD "")) st]
    exact ih _

/-- `process_html` in resolved-pipeline form: the raw save, then the link
targets (resolved and scope-filtered) recursed in order, then the iframe
loop, then the inline-CSS targets of `style` elements and `style`
attributes (each resolved and scope-filtered), and finally the save of the
document with in-scope iframe `src` values rewritten. -/
theorem process_html_resolved_pipeline (cfg : Cfg) (site : Site)
    (recurse : CrawlState → String → CrawlState)
    (url html_content : String) (doc : HtmlDoc) :
    ∀ st : CrawlState,
      process_html cfg site recurse st url html_content doc =
        save_file_st cfg
          ((styleAttrTargets cfg url doc).foldl recurse
            ((styleElemTargets cfg url doc).foldl recurse
              (List.foldl (iframeStep cfg site recurse url)
                ((processHtmlLinkTargets cfg url (doc.tags.filter isLinkTag)).foldl
                    recurse (save_file_st cfg st url html_content), [])
                doc.tags).1))
          url (serializeDoc ⟨doc.tags.map (iframeRewriteTag cfg url),
                             doc.resourceMatches⟩) := by
  intro st
  unfold process_html
  dsimp only
  rw [linkLoopFold_eq cfg url recurse (doc.tags.filter isLinkTag)
      (save_file_st cfg st url html_content)]
  rw [styleElemFold_eq cfg url recurse (doc.tags.filter (fun t => t.name = "style"))]
  rw [styleAttrFold_eq cfg url recurse
      (doc.tags.filter (fun t => t.get "style" ≠ none))]
  rw [iframeFold_snd cfg site recurse url doc.tags _ []]
  rw [List.nil_append]
  rfl

/-- The resolved, scope-filtered recursion targets of a frame document in
`scrape_iframe_content`: scripts, stylesheets, images, then resource-literal
matches, each resolved against the frame URL before the scope check. -/
def iframeContentTargets (cfg : Cfg) (frameUrl : String) (doc : HtmlDoc) :
    List String :=
  ((doc.tags.filter (fun t => t.name = "script" ∧ t.get "src" ≠ none)).map
      (fun t => urljoin frameUrl ((t.get "src").getD ""))).filter
    (fun u => is_same_domain cfg u) ++
  ((doc.tags.filter (fun t => t.name = "link" ∧ t.get "rel" = some "stylesheet")).map
      (fun t => urljoin frameUrl ((t.get "href").getD ""))).filter
    (fun u => is_same_domain cfg u) ++
  ((doc.tags.filter (fun t => t.name = "img" ∧ t.get "src" ≠ none)).map
      (fun t => urljoin frameUrl ((t.get "src").getD ""))).filter
    (fun u => is_same_domain cfg u) ++
  (doc.resourceMatches.map (urljoin frameUrl)).filter
    (fun u => is_same_domain cfg u)

theorem scrape_iframe_content_resolved (cfg : Cfg) (site : Site)
    (recurse : CrawlState → String → CrawlState) (frameUrl : String)
    (status : Nat) (ct body : String) (doc : HtmlDoc)
    (hin : is_same_domain cfg frameUrl = true)
    (hresp : site frameUrl = .response status ct body doc)
    (hok : isHttpError status = false) :
    ∀ st : CrawlState,
      scrape_iframe_content cfg site recurse st frameUrl =
        (iframeContentTargets cfg frameUrl doc).foldl recurse
          (save_file_st cfg (addEvent st (.fetch .iframeDoc frameUrl))
            frameUrl body) := by
  intro st
  unfold scrape_iframe_content
  rw [if_neg (by simp [hin]), hresp]
  dsimp only
  rw [if_neg (by simp [hok])]
  rw [tagResolveFoldSrc_eq cfg frameUrl recurse
      (doc.tags.filter (fun t => t.name = "script" ∧ t.get "src" ≠ none))]
  rw [tagResolveFoldHref_eq cfg frameUrl recurse
      (doc.tags.filter (fun t => t.name = "link" ∧ t.get "rel" = some "stylesheet"))]
  rw [tagResolveFoldSrc_eq cfg frameUrl recurse
      (doc.tags.filter (fun t => t.name = "img" ∧ t.get "src" ≠ none))]
  rw [cssResolveFold_eq cfg frameUrl recurse doc.resourceMatches]
  unfold iframeContentTargets
  rw [List.foldl_append, List.foldl_append, List.foldl_append]

/-- C2 amended: wherever the crawl enqueues or sub-crawls — `process_html`'s
link loop, its inline-CSS `url(...)` loops, its iframe loop, and all four
reference loops of `scrape_iframe_content` — the raw reference is resolved
with `urljoin` against the referencing document's URL before the scope
check, and only in-scope resolved URLs are passed on.  The eager image
extractors are the exception: the image URLs fetched by
`scrape_image_sizes` (responsive candidates and background `url(...)`
matches) and by `scrape_meta_images` (metadata images) are exactly the
**raw** attribute values that pass the scope predicate without resolution,
so an in-scope reference written relatively is never fetched there. -/
theorem C2_amended_raw_scope_check (cfg : Cfg) (site : Site) (url : String)
    (status : Nat) (ct body : String) (doc : HtmlDoc)
    (hresp : site url = .response status ct body doc)
    (hok : isHttpError status = false) :
    (∀ (recurse : CrawlState → String → CrawlState) (html_content : String)
        (d : HtmlDoc) (st : CrawlState),
      process_html cfg site recurse st url html_content d =
        save_file_st cfg
          ((styleAttrTargets cfg url d).foldl recurse
            ((styleElemTargets cfg url d).foldl recurse
              (List.foldl (iframeStep cfg site recurse url)
                ((processHtmlLinkTargets cfg url (d.tags.filter isLinkTag)).foldl
                    recurse (save_file_st cfg st url html_content), [])
                d.tags).1))
          url (serializeDoc ⟨d.tags.map (iframeRewriteTag cfg url),
                             d.resourceMatches⟩)) ∧
    (∀ (recurse : CrawlState → String → CrawlState) (base : String)
        (acc : CrawlState × List Tag) (t : Tag) (src : String),
      t.name = "iframe" → t.get "src" = some src → src ≠ "" →
      (iframeStep cfg site recurse base acc t).1 =
        if is_same_domain cfg (urljoin base src) then
          scrape_iframe_content cfg site recurse acc.1 (urljoin base src)
        else acc.1) ∧
    (∀ (recurse : CrawlState → String → CrawlState) (frameUrl : String)
        (status2 : Nat) (ct2 body2 : String) (d2 : HtmlDoc) (st : CrawlState),
      is_same_domain cfg frameUrl = true →
      site frameUrl = .response status2 ct2 body2 d2 →
      isHttpError status2 = false →
      scrape_iframe_content cfg site recurse st frameUrl =
        (iframeContentTargets cfg frameUrl d2).foldl recurse
          (save_file_st cfg (addEvent st (.fetch .iframeDoc frameUrl))
            frameUrl body2)) ∧
    (∀ st : CrawlState,
      imageFetchUrls ((scrape_image_sizes cfg site st url).events) =
        imageFetchUrls st.events ++ sizesRawTargets cfg doc) ∧
    (∀ st : CrawlState,
      metaImageFetchUrls ((scrape_meta_images cfg site st url).events) =
        metaImageFetchUrls st.events ++ metaRawTargets cfg doc) := by
  refine ⟨?_, ?_, ?_, ?_, ?_⟩
  · intro recurse html_content d st
    exact process_html_resolved_pipeline cfg site recurse url html_content d st
  · intro recurse base acc t src hn hsrc hne
    unfold iframeStep
    rw [if_pos hn, hsrc]
    dsimp only
    rw [if_pos hne]
    by_cases hd : is_same_domain cfg (urljoin base src) = true
    · rw [if_pos hd, if_pos hd]
    · rw [if_neg hd, if_neg hd]
  · intro recurse frameUrl status2 ct2 body2 d2 st hin hresp2 hok2
    exact scrape_iframe_content_resolved cfg site recurse frameUrl
      status2 ct2 body2 d2 hin hresp2 hok2 st
  · intro st
    rw [scrape_image_sizes_events, imageFetchUrls_append]
    congr 1
    unfold sizesTrace
    rw [hresp]
    dsimp only
    rw [if_neg (by simp [hok])]
    have hcons : ∀ l : List Event,
        imageFetchUrls (Event.fetch .sizesPage url :: l) = imageFetchUrls l :=
      fun l => rfl
    rw [hcons, imageFetchUrls_append]
    unfold sizesRawTargets
    rw [imageFetchUrls_doubleFlatten _ (imageFetchUrls_trace_sizes cfg site),
      imageFetchUrls_doubleFlatten _ (imageFetchUrls_trace_bg cfg site)]
  · intro st
    rw [scrape_meta_images_events, metaImageFetchUrls_append]
    congr 1
    unfold metaTrace
    rw [hresp]
    dsimp only
    rw [if_neg (by simp [hok])]
    have hcons : ∀ l : List Event,
        metaImageFetchUrls (Event.fetch .metaPage url :: l) = metaImageFetchUrls l :=
      fun l => rfl
    rw [hcons, metaImageFetchUrls_map_flatten _ (metaImageFetchUrls_trace_meta cfg site)]
    rfl

/-- Witness for `C2_amended_raw_scope_check`: the concrete page of `c2Site`.
Its single raw candidate `/a-400.jpg` fails the raw scope check, so the
actually-fetched list is empty even though the resolved URL is in scope. -/
theorem C2_amended_raw_scope_check_witness :
    ((∀ (recurse : CrawlState → String → CrawlState) (html_content : String)
        (d : HtmlDoc) (st : CrawlState),
      process_html defaultCfg c2Site recurse st "http://helium:2368/page.html"
          html_content d =
        save_file_st defaultCfg
          ((styleAttrTargets defaultCfg "http://helium:2368/page.html" d).foldl recurse
            ((styleElemTargets defaultCfg "http://helium:2368/page.html" d).foldl recurse
              (List.foldl
                (iframeStep defaultCfg c2Site recurse "http://helium:2368/page.html")
                ((processHtmlLinkTargets defaultCfg "http://helium:2368/page.html"
                    (d.tags.filter isLinkTag)).foldl
                    recurse (save_file_st defaultCfg st "http://helium:2368/page.html"
                      html_content), [])
                d.tags).1))
          "http://helium:2368/page.html"
          (serializeDoc ⟨d.tags.map
              (iframeRewriteTag defaultCfg "http://helium:2368/page.html"),
            d.resourceMatches⟩)) ∧
    (∀ (recurse : CrawlState → String → CrawlState) (base : String)
        (acc : CrawlState × List Tag) (t : Tag) (src : String),
      t.name = "iframe" → t.get "src" = some src → src ≠ "" →
      (iframeStep defaultCfg c2Site recurse base acc t).1 =
        if is_same_domain defaultCfg (urljoin base src) then
          scrape_iframe_content defaultCfg c2Site recurse acc.1 (urljoin base src)
        else acc.1) ∧
    (∀ (recurse : CrawlState → String → CrawlState) (frameUrl : String)
        (status2 : Nat) (ct2 body2 : String) (d2 : HtmlDoc) (st : CrawlState),
      is_same_domain defaultCfg frameUrl = true →
      c2Site frameUrl = .response status2 ct2 body2 d2 →
      isHttpError status2 = false →
      scrape_iframe_content defaultCfg c2Site recurse st frameUrl =
        (iframeContentTargets defaultCfg frameUrl d2).foldl recurse
          (save_file_st defaultCfg (addEvent st (.fetch .iframeDoc frameUrl))
            frameUrl body2)) ∧
    (∀ st : CrawlState,
      imageFetchUrls ((scrape_image_sizes defaultCfg c2Site st
          "http://helium:2368/page.html").events) =
        imageFetchUrls st.events ++ sizesRawTargets defaultCfg c2Doc) ∧
    (∀ st : CrawlState,
      metaImageFetchUrls ((scrape_meta_images defaultCfg c2Site st
          "http://helium:2368/page.html").events) =
        metaImageFetchUrls st.events ++ metaRawTargets defaultCfg c2Doc)) ∧
    sizesRawTargets defaultCfg c2Doc = [] :=
  ⟨C2_amended_raw_scope_check defaultCfg c2Site "http://helium:2368/page.html"
      200 "text/html" "<page>" c2Doc rfl (by decide),
   by decide⟩

end GhostStatic
